import Mathlib

/-!
Verification development for the `avro_streamer` repository
(`src/avro_streamer/avro_streamer.py`): an incremental transcoder for the
Avro Object Container File format.

The Python source is shallowly embedded below.  Bytes are modelled as
`List Nat` (each element intended `< 256`), Python integers as `Int`
(arbitrary precision, as in Python), Python exceptions as an explicit
error type, and the mutable parser object as an explicit state record
threaded through the phase functions.  External library calls
(`snappy`, `json`, `binascii.crc32`, `struct.pack`) are modelled by
Lean functions or by an abstract codec parameter, as documented at each
definition.
-/

namespace AvroStreamer

/-- Byte strings: Python 2 `str` values, one `Nat` (< 256) per byte. -/
abbrev Bytes := List Nat

/-- ASCII bytes of a Lean string literal (used for the Python string
literals appearing in the source, all of which are ASCII). -/
def strBytes (s : String) : Bytes :=
  s.data.map Char.toNat

/-- The Python string literals of the source, as explicit byte lists so
that kernel evaluation never has to unfold character literals.  The
theorem `strBytes_constants` checks each against its string form. -/
def avroCodecKey : Bytes := [97, 118, 114, 111, 46, 99, 111, 100, 101, 99]

/-- `"avro.schema"`. -/
def avroSchemaKey : Bytes := [97, 118, 114, 111, 46, 115, 99, 104, 101, 109, 97]

/-- `"snappy"`. -/
def snappyName : Bytes := [115, 110, 97, 112, 112, 121]

/-- `"deflate"`. -/
def deflateName : Bytes := [100, 101, 102, 108, 97, 116, 101]

/-- `"fields"`. -/
def fieldsKey : Bytes := [102, 105, 101, 108, 100, 115]

/-- `"name"`. -/
def nameKey : Bytes := [110, 97, 109, 101]

/-- `"type"`. -/
def typeKey : Bytes := [116, 121, 112, 101]

/-- `"long"`. -/
def longName : Bytes := [108, 111, 110, 103]

/-- `"int"`. -/
def intName : Bytes := [105, 110, 116]

/-- `"string"`. -/
def stringName : Bytes := [115, 116, 114, 105, 110, 103]

/-- `"float"` (appears only in spec scenarios, not in the source). -/
def floatName : Bytes := [102, 108, 111, 97, 116]

/-- `"null"`, `"true"`, `"false"` for the JSON serializer. -/
def nullName : Bytes := [110, 117, 108, 108]

/-- `"true"`. -/
def trueName : Bytes := [116, 114, 117, 101]

/-- `"false"`. -/
def falseName : Bytes := [102, 97, 108, 115, 101]

/-- Python exceptions raised by the parser.
`insufficientData` models `AvroInsufficientDataException` (recoverable),
`parsingFailure` models `AvroParsingFailureException` (fatal),
`pyError` models any other Python exception escaping the code
(`IndexError`, `TypeError`, `KeyError`, `ValueError` from `json.loads`,
snappy decompression errors), and `hung` marks fuel exhaustion of a loop
that Python would run forever (or longer than the supplied fuel). -/
inductive AvroErr where
  | insufficientData
  | parsingFailure (msg : String)
  | pyError (msg : String)
  | hung
deriving DecidableEq, Repr

/-- Resolution of one Python slice endpoint: negative indices count from
the end of the sequence, and results are clamped into `[0, len]`. -/
def pyIdx (len : Nat) (i : Int) : Nat :=
  if i < 0 then ((len : Int) + i).toNat else min i.toNat len

/-- Python slice `s[a:b]` (step 1), including the negative-index and
clamping semantics. -/
def pySlice (s : Bytes) (a b : Int) : Bytes :=
  (s.take (pyIdx s.length b)).drop (pyIdx s.length a)

/-- Python slice `s[a:]`. -/
def pySliceFrom (s : Bytes) (a : Int) : Bytes :=
  s.drop (pyIdx s.length a)

/-- Zig-zag step of `_encode_long`: Python `(toenc << 1) ^ (toenc >> 63)`
on an arbitrary-precision integer.  Python `<< 1` is `* 2`, `>> 63` is
floor division by `2 ^ 63`, and `^` is two's-complement xor, which is
`Int.xor`. -/
def zigzag (v : Int) : Int :=
  Int.xor (v * 2) (Int.fdiv v (2 ^ 63))

/-- Little-endian base-128 loop of `_encode_long`: Python
`while (toenc & ~0x7F) != 0: emit((toenc & 0x7f) | 0x80); toenc >>= 7`
then `emit(toenc)`.  The argument is the (provably nonnegative) zig-zag
value, so `& ~0x7F ≠ 0` is `128 ≤ n`, `(n & 0x7f) | 0x80` is
`n % 128 + 128`, and `n >>= 7` is `n / 128`. -/
def encodeLoopF : Nat → Nat → Bytes
  | 0, _ => []
  | f + 1, n => if n < 128 then [n] else (n % 128 + 128) :: encodeLoopF f (n / 128)

/-- The loop with enough fuel (each iteration divides by 128, so `n + 1`
steps always suffice; `encodeLoopF_eq` shows fuel-irrelevance). -/
def encodeLoop (n : Nat) : Bytes :=
  encodeLoopF (n + 1) n

/-- `GenericStreamingAvroParser._encode_long`, lines 79-87. -/
def encode_long (toenc : Int) : Bytes :=
  encodeLoop (zigzag toenc).toNat

/-- Final line of `_read_long`: Python `(n >> 1) ^ -(n & 1)` applied to
the accumulated nonnegative group value `n`. -/
def unzigzag (n : Nat) : Int :=
  Int.xor ((n >>> 1 : Nat) : Int) (-((n &&& 1 : Nat) : Int))

/-- Continuation loop of `_read_long`, lines 99-105.  `b` is the byte
just read, `rest` is the buffer suffix `buffered[ind:]`, `ind` the next
read position, `n` and `shift` the accumulators.  `blen ≤ ind` raises
`AvroInsufficientDataException`; indexing past the end of the actual
string raises a Python `IndexError` (possible only when `blen`
overstates the length). -/
def readLongLoop (blen : Int) :
    Bytes → Nat → Nat → Nat → Nat → Except AvroErr (Int × Nat)
  | rest, b, ind, n, shift =>
    if b &&& 0x80 = 0 then
      .ok (unzigzag n, ind)
    else if blen ≤ (ind : Int) then
      .error .insufficientData
    else
      match rest with
      | [] => .error (.pyError "IndexError")
      | b2 :: rest2 =>
          readLongLoop blen rest2 b2 (ind + 1)
            (n ||| (b2 &&& 0x7F) <<< shift) (shift + 7)

/-- `GenericStreamingAvroParser._read_long`, lines 89-107. -/
def read_long (buffered : Bytes) (blen : Int) : Except AvroErr (Int × Nat) :=
  if blen = 0 then .error .insufficientData
  else
    match buffered with
    | [] => .error (.pyError "IndexError")
    | b :: rest => readLongLoop blen rest b 1 (b &&& 0x7F) 7

/-- Specification-side zig-zag transform, following the spec's words:
signed values are mapped to unsigned via zig-zag "to keep small
magnitudes short", i.e. `v ↦ 2v` for nonnegative `v` and `v ↦ -2v-1`
for negative `v`.  Used only to compare with the source-derived
`zigzag`. -/
def zigzagSpec (v : Int) : Nat :=
  if 0 ≤ v then (2 * v).toNat else (-2 * v - 1).toNat

/-- Specification-side base-128 little-endian encoding with
continuation bits: groups of 7 bits, least significant first, each
non-final byte carrying the top bit.  Used only to compare with the
source-derived `encodeLoop`. -/
def base128F : Nat → Nat → Bytes
  | 0, _ => []
  | f + 1, n => if n < 128 then [n] else (128 + n % 128) :: base128F f (n / 128)

/-- Spec-side loop with enough fuel, as for `encodeLoop`. -/
def base128 (n : Nat) : Bytes :=
  base128F (n + 1) n

/-- `GenericStreamingAvroParser._read_bytes`, lines 109-118.  Note that
the decoded length `slen` may be negative, in which case the Python
slice `buffered[bused:bused+slen]` has a negative endpoint and the
returned consumed count `slen + bused` is smaller than the length of
the length prefix itself. -/
def read_bytes (buffered : Bytes) (blen : Int) : Except AvroErr (Bytes × Int) := do
  let (slen, bused) ← read_long buffered blen
  if blen < slen + bused then
    .error .insufficientData
  else
    .ok (pySlice buffered bused ((bused : Int) + slen), slen + bused)

/-! ### JSON model

Python's `json` module is modelled on the ASCII subdomain the
repository exercises: objects, arrays, strings without `\\u` escapes or
non-ASCII bytes, and integer numbers.  Outside this subdomain `loads`
returns `none` (whereas Python may succeed, e.g. on floats); no theorem
below evaluates such a case.  Dictionaries are insertion-ordered
association lists with duplicate keys collapsed on insertion, exactly
how `json.loads` builds a `dict`. -/

mutual

inductive Json where
  | jnull
  | jbool (b : Bool)
  | jnum (n : Int)
  | jstr (s : Bytes)
  | jarr (xs : JsonArr)
  | jobj (kvs : JsonObj)

inductive JsonArr where
  | anil
  | acons (x : Json) (xs : JsonArr)

inductive JsonObj where
  | onil
  | ocons (k : Bytes) (v : Json) (kvs : JsonObj)

end

/-- Dictionary insertion: `d[k] = v`.  An existing key keeps its
position and gets the new value; a new key is appended. -/
def objInsert : JsonObj → Bytes → Json → JsonObj
  | .onil, k, v => .ocons k v .onil
  | .ocons k0 v0 kvs, k, v =>
      if k0 = k then .ocons k0 v kvs else .ocons k0 v0 (objInsert kvs k v)

/-- Dictionary lookup `d[k]`; a missing key raises `KeyError`. -/
def objGet : JsonObj → Bytes → Except AvroErr Json
  | .onil, _ => .error (.pyError "KeyError")
  | .ocons k0 v0 kvs, k => if k0 = k then .ok v0 else objGet kvs k

def objHasKey : JsonObj → Bytes → Bool
  | .onil, _ => false
  | .ocons k0 _ kvs, k => k0 == k || objHasKey kvs k

/-- Python `j == "some string"` for a JSON value `j`. -/
def jeqStr (j : Json) (s : Bytes) : Bool :=
  match j with
  | .jstr s2 => s2 == s
  | _ => false

def arrContainsStr : JsonArr → Bytes → Bool
  | .anil, _ => false
  | .acons x xs, k => jeqStr x k || arrContainsStr xs k

/-- Python substring test `needle in hay` for byte strings. -/
def bytesContains : Bytes → Bytes → Bool
  | [], needle => needle.isEmpty
  | c :: t, needle => needle.isPrefixOf (c :: t) || bytesContains t needle

/-- Python `k in j`: key membership for dicts, element equality for
lists, substring test for strings, `TypeError` otherwise. -/
def containsKey (j : Json) (k : Bytes) : Except AvroErr Bool :=
  match j with
  | .jobj kvs => .ok (objHasKey kvs k)
  | .jarr xs => .ok (arrContainsStr xs k)
  | .jstr s => .ok (bytesContains s k)
  | _ => .error (.pyError "TypeError: argument not iterable")

/-- Python `j[k]` with a string key: dict lookup, `TypeError` on
anything that is not a dict. -/
def getItem (j : Json) (k : Bytes) : Except AvroErr Json :=
  match j with
  | .jobj kvs => objGet kvs k
  | _ => .error (.pyError "TypeError: not subscriptable")

/-- Python `j[k] = v` with a string key. -/
def setItem (j : Json) (k : Bytes) (v : Json) : Except AvroErr Json :=
  match j with
  | .jobj kvs => .ok (.jobj (objInsert kvs k v))
  | _ => .error (.pyError "TypeError: item assignment")

/-- Python `dict(j)` as used in `_read_avro_schema` (a shallow copy of
the parsed schema).  Modelled for dict arguments only; Python would
also accept a list of key/value pairs, which no theorem below
exercises. -/
def dictCopy (j : Json) : Except AvroErr Json :=
  match j with
  | .jobj kvs => .ok (.jobj kvs)
  | _ => .error (.pyError "TypeError: dict expected")

/-! #### `json.dumps` -/

def hexDigitChar (h : Nat) : Nat :=
  if h < 10 then 48 + h else 87 + h

/-- One character of a dumped JSON string, with the short escapes and
`\\u00XX` control escapes `json.dumps` uses on ASCII input. -/
def jquoteChar (c : Nat) : Bytes :=
  if c = 34 then [92, 34]
  else if c = 92 then [92, 92]
  else if c = 8 then [92, 98]
  else if c = 9 then [92, 116]
  else if c = 10 then [92, 110]
  else if c = 12 then [92, 102]
  else if c = 13 then [92, 114]
  else if c < 32 then [92, 117, 48, 48, hexDigitChar (c / 16), hexDigitChar (c % 16)]
  else [c]

def jquote (s : Bytes) : Bytes :=
  [34] ++ (s.map jquoteChar).flatten ++ [34]

/-- Decimal digits of a natural number (fuel-structured so that the
kernel can evaluate it; `n + 1` fuel always suffices). -/
def natDigitsF : Nat → Nat → Bytes
  | 0, _ => []
  | f + 1, n => if n < 10 then [48 + n] else natDigitsF f (n / 10) ++ [48 + n % 10]

def natAscii (n : Nat) : Bytes := natDigitsF (n + 1) n

def intAscii (n : Int) : Bytes :=
  if n < 0 then 45 :: natAscii (-n).toNat else natAscii n.toNat

mutual

/-- Model of Python 2 `json.dumps` with the default separators
`(', ', ': ')` and ASCII content. -/
def dumps : Json → Bytes
  | .jnull => nullName
  | .jbool true => trueName
  | .jbool false => falseName
  | .jnum n => intAscii n
  | .jstr s => jquote s
  | .jarr .anil => [91, 93]
  | .jarr (.acons x xs) => [91] ++ dumps x ++ dumpsArrTail xs ++ [93]
  | .jobj .onil => [123, 125]
  | .jobj (.ocons k v kvs) =>
      [123] ++ jquote k ++ [58, 32] ++ dumps v ++ dumpsObjTail kvs ++ [125]

def dumpsArrTail : JsonArr → Bytes
  | .anil => []
  | .acons x xs => [44, 32] ++ dumps x ++ dumpsArrTail xs

def dumpsObjTail : JsonObj → Bytes
  | .onil => []
  | .ocons k v kvs => [44, 32] ++ jquote k ++ [58, 32] ++ dumps v ++ dumpsObjTail kvs

end

/-! #### `json.loads` -/

def skipWs : Bytes → Bytes
  | [] => []
  | c :: rest => if c = 32 ∨ c = 9 ∨ c = 10 ∨ c = 13 then skipWs rest else c :: rest

def unescapeChar (e : Nat) : Option Nat :=
  if e = 34 then some 34
  else if e = 92 then some 92
  else if e = 47 then some 47
  else if e = 98 then some 8
  else if e = 102 then some 12
  else if e = 110 then some 10
  else if e = 114 then some 13
  else if e = 116 then some 9
  else none

/-- Body of a JSON string after the opening quote; returns the decoded
content and the remaining input. -/
def parseStrBody : Bytes → Option (Bytes × Bytes)
  | [] => none
  | c :: rest =>
      if c = 34 then some ([], rest)
      else if c = 92 then
        match rest with
        | [] => none
        | e :: rest2 =>
            match unescapeChar e with
            | none => none
            | some ch =>
                match parseStrBody rest2 with
                | none => none
                | some (str, r) => some (ch :: str, r)
      else if c < 32 ∨ 128 ≤ c then none
      else
        match parseStrBody rest with
        | none => none
        | some (str, r) => some (c :: str, r)

def isDigit (c : Nat) : Bool := 48 ≤ c && c ≤ 57

def takeDigits : Bytes → (Bytes × Bytes)
  | [] => ([], [])
  | c :: rest =>
      if isDigit c then
        let (d, r) := takeDigits rest
        (c :: d, r)
      else ([], c :: rest)

def digitsVal (ds : Bytes) : Nat :=
  ds.foldl (fun a c => a * 10 + (c - 48)) 0

/-- Rejects the float forms `1.5`, `1e3`: integers only. -/
def numGuard (n : Int) (r : Bytes) : Option (Json × Bytes) :=
  match r with
  | 46 :: _ => none
  | 101 :: _ => none
  | 69 :: _ => none
  | _ => some (.jnum n, r)

def parseNum : Bytes → Option (Json × Bytes)
  | [] => none
  | c :: rest =>
      if c = 45 then
        match takeDigits rest with
        | ([], _) => none
        | (ds, r) => numGuard (-(digitsVal ds : Int)) r
      else if isDigit c then
        match takeDigits (c :: rest) with
        | (ds, r) => numGuard (digitsVal ds) r
      else none

mutual

/-- Recursive-descent JSON value reader; the fuel only bounds nesting
and `loads` supplies more than the input length can need. -/
def parseVal : Nat → Bytes → Option (Json × Bytes)
  | 0, _ => none
  | fuel + 1, s =>
      match skipWs s with
      | [] => none
      | c :: rest =>
          if c = 34 then
            match parseStrBody rest with
            | none => none
            | some (str, r) => some (.jstr str, r)
          else if c = 91 then
            match skipWs rest with
            | 93 :: r => some (.jarr .anil, r)
            | s2 =>
                match parseItems fuel s2 with
                | none => none
                | some (xs, r) => some (.jarr xs, r)
          else if c = 123 then
            match skipWs rest with
            | 125 :: r => some (.jobj .onil, r)
            | s2 =>
                match parsePairs fuel .onil s2 with
                | none => none
                | some (kvs, r) => some (.jobj kvs, r)
          else if c = 110 then
            match rest with
            | 117 :: 108 :: 108 :: r => some (.jnull, r)
            | _ => none
          else if c = 116 then
            match rest with
            | 114 :: 117 :: 101 :: r => some (.jbool true, r)
            | _ => none
          else if c = 102 then
            match rest with
            | 97 :: 108 :: 115 :: 101 :: r => some (.jbool false, r)
            | _ => none
          else parseNum (c :: rest)

def parseItems : Nat → Bytes → Option (JsonArr × Bytes)
  | 0, _ => none
  | fuel + 1, s =>
      match parseVal fuel s with
      | none => none
      | some (v, r) =>
          match skipWs r with
          | 44 :: r2 =>
              match parseItems fuel r2 with
              | none => none
              | some (xs, r3) => some (.acons v xs, r3)
          | 93 :: r2 => some (.acons v .anil, r2)
          | _ => none

def parsePairs : Nat → JsonObj → Bytes → Option (JsonObj × Bytes)
  | 0, _, _ => none
  | fuel + 1, acc, s =>
      match skipWs s with
      | 34 :: rest =>
          match parseStrBody rest with
          | none => none
          | some (k, r) =>
              match skipWs r with
              | 58 :: r2 =>
                  match parseVal fuel r2 with
                  | none => none
                  | some (v, r3) =>
                      match skipWs r3 with
                      | 44 :: r4 => parsePairs fuel (objInsert acc k v) r4
                      | 125 :: r4 => some (objInsert acc k v, r4)
                      | _ => none
              | _ => none
      | _ => none

end

/-- Model of `json.loads`: a complete JSON document with nothing but
whitespace after it; `none` models the `ValueError` Python raises. -/
def loads (s : Bytes) : Option Json :=
  match parseVal (2 * s.length + 2) s with
  | none => none
  | some (j, r) =>
      match skipWs r with
      | [] => some j
      | _ => none

/-! ### Record transform and record parsing -/

/-- The two concrete classes: `GenericStreamingAvroParser` (`base`) and
`GenericStrippingAvroParser` with its `tostrip` set (`strip`). -/
inductive Transform where
  | base
  | strip (tostrip : List Bytes)

/-- Decoded Avro field values: integers for `long`/`int`, byte strings
for `string`. -/
inductive AvroVal where
  | vlong (v : Int)
  | vstr (s : Bytes)

/-- Loop body of `GenericStrippingAvroParser._parse_schema_fields`,
lines 387-394: drop fields whose `name` is in `tostrip`. -/
def stripFields (tostrip : List Bytes) : JsonArr → Except AvroErr JsonArr
  | .anil => .ok .anil
  | .acons f xs => do
      let nm ← getItem f (nameKey)
      let rest ← stripFields tostrip xs
      if (match nm with | .jstr s => tostrip.contains s | _ => false) then
        .ok rest
      else
        .ok (.acons f rest)

/-- `_parse_schema_fields`: identity for the base class (lines
129-134), filtering for the stripping subclass (lines 387-394). -/
def parse_schema_fields (t : Transform) (fields : Json) : Except AvroErr Json :=
  match t with
  | .base => .ok fields
  | .strip tostrip =>
      match fields with
      | .jarr xs => (stripFields tostrip xs).map .jarr
      | _ => .error (.pyError "TypeError: not iterable")

/-- `GenericStreamingAvroParser._reencode_field`, lines 224-237.  A
value whose Python type does not fit the branch taken would raise
`TypeError` (unreachable from `_parse_single_record`). -/
def reencode_field_base (val : AvroVal) (ftype : Json) : Except AvroErr Bytes :=
  if jeqStr ftype (longName) || jeqStr ftype (intName) then
    match val with
    | .vlong v => .ok (encode_long v)
    | .vstr _ => .error (.pyError "TypeError")
  else
    match val with
    | .vstr s => .ok (encode_long s.length ++ s)
    | .vlong _ => .error (.pyError "TypeError")

/-- `_reencode_field` as dispatched on the concrete class: the
stripping override (lines 379-384) returns `""` for stripped names and
otherwise defers to the base implementation. -/
def reencode_field (t : Transform) (val : AvroVal) (ftype fname : Json) :
    Except AvroErr Bytes :=
  match t with
  | .base => reencode_field_base val ftype
  | .strip tostrip =>
      if (match fname with | .jstr s => tostrip.contains s | _ => false) then
        .ok []
      else
        reencode_field_base val ftype

/-- Field loop of `_parse_single_record`, lines 244-258, threading
`skip` and `encoded`. -/
def parseRecordFields (t : Transform) :
    JsonArr → Bytes → Int → Int → Bytes → Except AvroErr (Bytes × Int)
  | .anil, _source, _rem, skip, encoded => .ok (encoded, skip)
  | .acons f xs, source, rem, skip, encoded => do
      let ftypeObj ← getItem f (typeKey)
      let ftype ← getItem ftypeObj (typeKey)
      if jeqStr ftype (longName) || jeqStr ftype (intName) then do
        let (val, used) ← read_long (pySliceFrom source skip) (rem - skip)
        let fname ← getItem f (nameKey)
        let enc ← reencode_field t (.vlong val) ftype fname
        parseRecordFields t xs source rem (skip + (used : Int)) (encoded ++ enc)
      else if jeqStr ftype (stringName) then do
        let (val, used) ← read_bytes (pySliceFrom source skip) (rem - skip)
        let fname ← getItem f (nameKey)
        let enc ← reencode_field t (.vstr val) ftype fname
        parseRecordFields t xs source rem (skip + used) (encoded ++ enc)
      else
        .error (.parsingFailure "Unsupported data type in schema")

/-- `GenericStreamingAvroParser._parse_single_record`, lines 239-259. -/
def parse_single_record (t : Transform) (schema : Json) (source : Bytes) :
    Except AvroErr (Bytes × Int) := do
  let fields ← getItem schema (fieldsKey)
  match fields with
  | .jarr xs => parseRecordFields t xs source (source.length : Int) 0 []
  | _ => .error (.pyError "TypeError: not iterable")

/-- The `while obj_count > 0` loop of `_parse_data_block`, lines
291-296, which runs exactly `obj_count.toNat` iterations; returns the
concatenated re-encoded records and the final `infused`. -/
def recordsLoop (t : Transform) (schema : Json) :
    Nat → Bytes → Int → Bytes → Except AvroErr (Bytes × Int)
  | 0, _inflated, infused, reencoded => .ok (reencoded, infused)
  | k + 1, inflated, infused, reencoded => do
      let (recb, skip) ← parse_single_record t schema (pySliceFrom inflated infused)
      recordsLoop t schema k inflated (infused + skip) (reencoded ++ recb)

/-! ### CRC-32, struct.pack, snappy -/

/-- One bit step of the reflected CRC-32 (polynomial `0xEDB88320`). -/
def crc32Step (r : Nat) : Nat :=
  if r % 2 = 1 then (r / 2) ^^^ 0xEDB88320 else r / 2

def crcBits : Nat → Nat → Nat
  | 0, r => r
  | k + 1, r => crcBits k (crc32Step r)

def crc32Byte (r b : Nat) : Nat := crcBits 8 (r ^^^ b)

/-- `binascii.crc32(s) & 0xffffffff`: standard CRC-32 (init and xorout
`0xFFFFFFFF`). -/
def crc32 (data : Bytes) : Nat :=
  (data.foldl crc32Byte 0xFFFFFFFF) ^^^ 0xFFFFFFFF

/-- `struct.pack("I", n)`: 4 bytes, little-endian (native x86 order). -/
def packUInt32LE (n : Nat) : Bytes :=
  [n % 256, n / 256 % 256, n / 65536 % 256, n / 16777216 % 256]

/-- The `snappy` library functions the source calls, kept abstract:
theorems are parameterized over the codec, and witnesses use the
literal-only model `snappyLit` below. -/
structure Codec where
  compress : Bytes → Bytes
  decompress : Bytes → Option Bytes

/-- Literal chunks of the raw snappy format: tag `(len-1) << 2` then
the bytes, at most 60 per chunk (fuel-structured; `length` fuel
suffices). -/
def litChunksF : Nat → Bytes → Bytes
  | _, [] => []
  | 0, _ => []
  | f + 1, s => ((s.take 60).length - 1) * 4 :: ((s.take 60) ++ litChunksF f (s.drop 60))

def snappyCompress (s : Bytes) : Bytes :=
  base128 s.length ++ litChunksF s.length s

/-- Plain (non-zig-zag) base-128 varint decode for the snappy
preamble. -/
def snappyUvarint : Bytes → Option (Nat × Bytes)
  | [] => none
  | c :: rest =>
      if c < 128 then some (c, rest)
      else
        match snappyUvarint rest with
        | none => none
        | some (v, r) => some (c % 128 + v * 128, r)

def snappyChunksF : Nat → Bytes → Option Bytes
  | _, [] => some []
  | 0, _ => none
  | f + 1, tag :: rest =>
      if tag % 4 = 0 then
        let n := tag / 4 + 1
        if rest.length < n then none
        else
          match snappyChunksF f (rest.drop n) with
          | none => none
          | some d => some (rest.take n ++ d)
      else none

def snappyDecompress (s : Bytes) : Option Bytes :=
  match snappyUvarint s with
  | none => none
  | some (n, rest) =>
      match snappyChunksF rest.length rest with
      | none => none
      | some d => if d.length = n then some d else none

/-- Literal-only model of python-snappy: matches the real library's
output byte-for-byte on short incompressible inputs (length ≤ 60),
which is all the concrete theorems below use. -/
def snappyLit : Codec :=
  { compress := snappyCompress, decompress := snappyDecompress }

/-! ### Parser state and phase functions -/

/-- The state constants `AVRO_HEADER_MAGIC = 1` through
`AVRO_START_DATABLOCK = 4`, lines 26-29. -/
inductive AvroState where
  | headerMagic
  | fileMetadata
  | syncMarker
  | startDatablock
deriving DecidableEq, Repr

/-- The mutable attributes of `GenericStreamingAvroParser` (lines
67-74) that persist between parse steps.  The per-phase scratch
attributes `bused` and `saved` are reset at the start of every phase
and are modelled as locals.  `codec` and `schema` are committed here
only when a phase succeeds; Python assigns them mid-phase, but a failed
phase is always either retried from the same committed state (re-doing
the same assignments) or fatal, so the difference is unobservable. -/
structure PState where
  buffered : Bytes
  blen : Int
  schema : Json
  codec : Option Bytes
  state : AvroState
  syncmarker : Option Bytes

/-- `__init__` with initial body `initbody` (lines 57-77). -/
def initState (initbody : Bytes) : PState :=
  { buffered := initbody
    blen := (initbody.length : Int)
    schema := .jobj .onil
    codec := none
    state := .headerMagic
    syncmarker := none }

/-- `b"Obj\x01"`. -/
def magicBytes : Bytes := [79, 98, 106, 1]

/-- `_parse_header_magic`, lines 157-170 (with `self.bused = 0`). -/
def parse_header_magic (st : PState) : Except AvroErr (Bytes × PState) :=
  if st.blen - 0 < 4 then .error .insufficientData
  else if pySlice st.buffered 0 4 ≠ magicBytes then
    .error (.parsingFailure "Invalid Header Magic")
  else
    .ok (pySlice st.buffered 0 4,
      { st with
          buffered := pySliceFrom st.buffered 4
          blen := st.blen - (0 + 4)
          state := .fileMetadata })

/-- `_parse_sync_marker`, lines 210-222: capture on first sight,
byte-for-byte comparison afterwards; returns `self.syncmarker`. -/
def parse_sync_marker (st : PState) : Except AvroErr (Bytes × PState) :=
  if st.blen < 16 then .error .insufficientData
  else
    match st.syncmarker with
    | none =>
        let m := pySlice st.buffered 0 16
        .ok (m,
          { st with
              buffered := pySliceFrom st.buffered 16
              blen := st.blen - 16
              state := .startDatablock
              syncmarker := some m })
    | some m =>
        if pySlice st.buffered 0 16 ≠ m then
          .error (.parsingFailure "Sync Marker does not match marker in header")
        else
          .ok (m,
            { st with
                buffered := pySliceFrom st.buffered 16
                blen := st.blen - 16
                state := .startDatablock })

/-- `_read_avro_codec`, lines 120-127; returns the new `bused`,
`saved`, and the codec bytes. -/
def read_avro_codec (buffered : Bytes) (blen bused : Int) (saved : Bytes) :
    Except AvroErr (Int × Bytes × Bytes) := do
  let (codec, used) ← read_bytes (pySliceFrom buffered bused) (blen - bused)
  .ok (bused + used, saved ++ pySlice buffered bused (bused + used), codec)

/-- Lines 148-150 of `_read_avro_schema`: the `'fields' in jsonschema`
check, the `_parse_schema_fields` hook, and the replacement of the
`fields` entry; the result is the object that gets re-serialized into
the output metadata. -/
def filteredSchema (t : Transform) (j : Json) : Except AvroErr Json := do
  let hasF ← containsKey j fieldsKey
  if hasF then do
    let fields ← getItem j fieldsKey
    let newfields ← parse_schema_fields t fields
    setItem j fieldsKey newfields
  else
    pure j

/-- `_read_avro_schema`, lines 136-154.  Returns the new `bused`,
`saved` (with the re-serialized, possibly filtered schema appended),
and the original parsed schema that becomes `self.schema` (the
`dict(jsonschema)` shallow copy is unaffected by the later replacement
of the `fields` entry). -/
def read_avro_schema (t : Transform) (buffered : Bytes) (blen bused : Int)
    (saved : Bytes) : Except AvroErr (Int × Bytes × Json) := do
  let (fullschema, used) ← read_bytes (pySliceFrom buffered bused) (blen - bused)
  let bused2 := bused + used
  match loads fullschema with
  | none => .error (.pyError "ValueError: invalid json")
  | some j => do
      let orig ← dictCopy j
      let j2 ← filteredSchema t j
      let newschema := dumps j2
      .ok (bused2, saved ++ encode_long (newschema.length : Int) ++ newschema, orig)

/-- One iteration of the `for i in xrange(block_count)` body in
`_parse_file_metadata`, lines 182-197. -/
def metaEntry (t : Transform) (buffered : Bytes) (blen : Int)
    (bused : Int) (saved : Bytes) (codec : Option Bytes) (schema : Json) :
    Except AvroErr (Int × Bytes × Option Bytes × Json) := do
  let (key, used) ← read_bytes (pySliceFrom buffered bused) (blen - bused)
  let saved2 := saved ++ pySlice buffered bused (bused + used)
  let bused2 := bused + used
  if key = avroCodecKey then do
    let (bused3, saved3, c) ← read_avro_codec buffered blen bused2 saved2
    .ok (bused3, saved3, some c, schema)
  else if key = avroSchemaKey then do
    let (bused3, saved3, j) ← read_avro_schema t buffered blen bused2 saved2
    .ok (bused3, saved3, codec, j)
  else do
    let (_throwaway, used2) ← read_bytes (pySliceFrom buffered bused2) (blen - bused2)
    .ok (bused2 + used2, saved2 ++ pySlice buffered bused2 (bused2 + used2), codec, schema)

/-- The `for i in xrange(block_count)` loop. -/
def metaEntries (t : Transform) (buffered : Bytes) (blen : Int) :
    Nat → Int × Bytes × Option Bytes × Json →
    Except AvroErr (Int × Bytes × Option Bytes × Json)
  | 0, acc => .ok acc
  | k + 1, (bused, saved, codec, schema) => do
      let acc2 ← metaEntry t buffered blen bused saved codec schema
      metaEntries t buffered blen k acc2

/-- The `while block_count != 0` loop of `_parse_file_metadata`, lines
181-202.  Python's loop can diverge (e.g. a negative count re-read at
an unchanged position); the fuel exhausts only in such cases and
yields the marker error `hung`. -/
def metaLoop (t : Transform) (buffered : Bytes) (blen : Int) :
    Nat → Int → Int × Bytes × Option Bytes × Json →
    Except AvroErr (Int × Bytes × Option Bytes × Json)
  | 0, _bc, _acc => .error .hung
  | fuel + 1, block_count, (bused, saved, codec, schema) =>
      if block_count = 0 then .ok (bused, saved, codec, schema)
      else do
        let (bused2, saved2, codec2, schema2) ←
          metaEntries t buffered blen block_count.toNat (bused, saved, codec, schema)
        let (bc2, used) ← read_long (pySliceFrom buffered bused2) (blen - bused2)
        metaLoop t buffered blen fuel bc2
          (bused2 + used, saved2 ++ pySlice buffered bused2 (bused2 + used), codec2, schema2)

/-- `_parse_file_metadata`, lines 172-208. -/
def parse_file_metadata (t : Transform) (st : PState) (fuel : Nat) :
    Except AvroErr (Bytes × PState) := do
  let (block_count, used) ← read_long st.buffered st.blen
  let saved := pySlice st.buffered 0 used
  let (busedF, savedF, codecF, schemaF) ←
    metaLoop t st.buffered st.blen fuel block_count ((used : Int), saved, st.codec, st.schema)
  .ok (savedF,
    { st with
        buffered := pySliceFrom st.buffered busedF
        blen := st.blen - busedF
        state := .syncMarker
        codec := codecF
        schema := schemaF })

/-- `_parse_data_block`, lines 261-319. -/
def parse_data_block (sc : Codec) (t : Transform) (st : PState) :
    Except AvroErr (Bytes × PState) := do
  let (obj_count, used) ← read_long st.buffered st.blen
  let saved := pySlice st.buffered 0 used
  let bused : Int := (used : Int)
  let (block_size, used2) ← read_long (pySliceFrom st.buffered bused) (st.blen - bused)
  let bused2 := bused + used2
  if st.blen < bused2 + block_size + 16 then .error .insufficientData
  else do
    let (inflated, bused3) ←
      if st.codec = some (snappyName) then
        match sc.decompress (pySlice st.buffered bused2 (bused2 + block_size - 4)) with
        | none => (.error (.pyError "UncompressError") : Except AvroErr (Bytes × Int))
        | some inf => .ok (inf, bused2 + block_size)
      else if st.codec = some (deflateName) then
        .error (.parsingFailure "Unsupported codec: deflate")
      else
        .error (.parsingFailure "Unknown codec")
    let (reencoded, _infused) ← recordsLoop t st.schema obj_count.toNat inflated 0 []
    let (compressed, complen) :=
      if st.codec = some (snappyName) then
        let c := sc.compress reencoded
        (c, (c.length : Int) + 4)
      else
        (([] : Bytes), (0 : Int))
    let saved2 := saved ++ encode_long complen ++ compressed ++ packUInt32LE (crc32 reencoded)
    let st2 := { st with buffered := pySliceFrom st.buffered bused3, blen := st.blen - bused3 }
    let (marker, st3) ← parse_sync_marker st2
    .ok (saved2 ++ marker, st3)

/-- `_parse_next_item`, lines 323-336.  The metadata fuel
`st.blen.toNat + 1` covers every terminating run (each loop iteration
consumes at least one byte in those runs). -/
def parse_next_item (sc : Codec) (t : Transform) (st : PState) :
    Except AvroErr (Bytes × PState) :=
  match st.state with
  | .headerMagic => parse_header_magic st
  | .fileMetadata => parse_file_metadata t st (st.blen.toNat + 1)
  | .syncMarker => parse_sync_marker st
  | .startDatablock => parse_data_block sc t st

/-- How an iteration over the parser ends: `stopIteration` models the
`StopIteration` that `next` re-raises when the source is exhausted
(which a Python caller sees as a normal end of iteration), `fatal`
models any other exception propagating out. -/
inductive RunEnd where
  | stopIteration
  | fatal (e : AvroErr)
deriving DecidableEq, Repr

/-- The driver: repeated `next()` calls (lines 338-360), collecting
every yielded chunk.  On `AvroInsufficientDataException` the next
source chunk is appended and the step retried; any other exception
propagates.  The fuel bounds the number of parse attempts; all
theorems below supply enough for their runs. -/
def runAll (sc : Codec) (t : Transform) :
    Nat → PState → List Bytes → List Bytes × RunEnd
  | 0, _st, _chunks => ([], .fatal .hung)
  | fuel + 1, st, chunks =>
      match parse_next_item sc t st with
      | .ok (out, st2) =>
          let (outs, e) := runAll sc t fuel st2 chunks
          (out :: outs, e)
      | .error .insufficientData =>
          match chunks with
          | [] => ([], .stopIteration)
          | c :: cs =>
              runAll sc t fuel
                { st with buffered := st.buffered ++ c, blen := st.blen + (c.length : Int) } cs
      | .error e => ([], .fatal e)

/-! ### Instrumented record decoding (specification side)

`recordPieces` re-traces the reads of `_parse_single_record` but
records, per field, the name, declared type and decoded value instead
of re-encoded bytes.  It is used to state how the transform hooks act
on a record without changing which bytes are consumed. -/

def recordPieces : JsonArr → Bytes → Int → Int →
    Except AvroErr (List (Json × Json × AvroVal) × Int)
  | .anil, _source, _rem, skip => .ok ([], skip)
  | .acons f xs, source, rem, skip => do
      let ftypeObj ← getItem f typeKey
      let ftype ← getItem ftypeObj typeKey
      if jeqStr ftype longName || jeqStr ftype intName then do
        let (val, used) ← read_long (pySliceFrom source skip) (rem - skip)
        let fname ← getItem f nameKey
        let rest ← recordPieces xs source rem (skip + (used : Int))
        .ok ((fname, ftype, AvroVal.vlong val) :: rest.1, rest.2)
      else if jeqStr ftype stringName then do
        let (val, used) ← read_bytes (pySliceFrom source skip) (rem - skip)
        let fname ← getItem f nameKey
        let rest ← recordPieces xs source rem (skip + used)
        .ok ((fname, ftype, AvroVal.vstr val) :: rest.1, rest.2)
      else
        .error (.parsingFailure "Unsupported data type in schema")

/-- The bytes the base transform emits for one decoded field (the
canonical wire form). -/
def baseFieldBytes (v : AvroVal) : Bytes :=
  match v with
  | .vlong x => encode_long x
  | .vstr s => encode_long (s.length : Int) ++ s

/-- Whether a stripping transform with set `F` drops the field piece
(its recorded name is a string contained in `F`). -/
def pieceStripped (F : List Bytes) (p : Json × Json × AvroVal) : Bool :=
  match p.1 with
  | .jstr s => F.contains s
  | _ => false

/-- The bytes any transform emits for one decoded field piece. -/
def pieceBytes (t : Transform) (p : Json × Json × AvroVal) : Bytes :=
  match t with
  | .base => baseFieldBytes p.2.2
  | .strip F => if pieceStripped F p then [] else baseFieldBytes p.2.2

/-- Whether a schema field object's `name` is a string in `F`. -/
def fieldNamedIn (F : List Bytes) (f : Json) : Bool :=
  match getItem f nameKey with
  | .ok (.jstr s) => F.contains s
  | _ => false

/-- Specification-side filter: the original field list with exactly
the fields named in `F` removed, in original order. -/
def arrFilterOut (F : List Bytes) : JsonArr → JsonArr
  | .anil => .anil
  | .acons f xs =>
      if fieldNamedIn F f then arrFilterOut F xs else .acons f (arrFilterOut F xs)

/-- Concatenation of field lists (for stating where an unsupported
field sits in the schema). -/
def arrAppend : JsonArr → JsonArr → JsonArr
  | .anil, ys => ys
  | .acons x xs, ys => .acons x (arrAppend xs ys)

/-! ### Concrete streams used by the claim theorems -/

/-- The JSON text `{"fields":[]}` (13 bytes, no space). -/
def c1Schema : Bytes := [123, 34, 102, 105, 101, 108, 100, 115, 34, 58, 91, 93, 125]

/-- File metadata: one map group with `avro.codec → "snappy"` and
`avro.schema → {"fields":[]}`, then the terminating zero count.  All
length prefixes are canonical varints. -/
def c1Meta : Bytes :=
  [4, 20] ++ avroCodecKey ++ [12] ++ snappyName
    ++ [22] ++ avroSchemaKey ++ [26] ++ c1Schema ++ [0]

/-- A 16-byte sync marker. -/
def c1Sync : Bytes := List.range 16

/-- One data block: 1 record of the empty-field-list schema (zero
bytes), snappy payload `compress("") = 0x00`, block size `1 + 4`,
correct CRC-32 of the empty record content, trailing sync marker. -/
def c1Block : Bytes := [2, 10, 0, 0, 0, 0, 0] ++ c1Sync

/-- A complete, valid OCF stream with supported codec `snappy`. -/
def c1Stream : Bytes := magicBytes ++ c1Meta ++ c1Sync ++ c1Block

/-- A schema object `{"fields": []}` as a parsed JSON value. -/
def emptyFieldsSchema : Json := .jobj (.ocons fieldsKey (.jarr .anil) .onil)

/-- A parser state about to read `c1Block`: codec snappy, empty field
list, sync marker already captured. -/
def c2State : PState :=
  { buffered := c1Block
    blen := (c1Block.length : Int)
    schema := emptyFieldsSchema
    codec := some snappyName
    state := .startDatablock
    syncmarker := some c1Sync }

/-- A field object `{"name": "x", "type": {"type": "float"}}`. -/
def floatField : Json :=
  .jobj (.ocons nameKey (.jstr [120])
    (.ocons typeKey (.jobj (.ocons typeKey (.jstr floatName) .onil)) .onil))

/-- A schema with a single field of the unsupported type `float`. -/
def floatFieldSchema : Json :=
  .jobj (.ocons fieldsKey (.jarr (.acons floatField .anil)) .onil)

/-- `{"name": "a", "type": {"type": "long"}}`. -/
def aField : Json :=
  .jobj (.ocons nameKey (.jstr [97])
    (.ocons typeKey (.jobj (.ocons typeKey (.jstr longName) .onil)) .onil))

/-- `{"name": "b", "type": {"type": "string"}}`. -/
def bField : Json :=
  .jobj (.ocons nameKey (.jstr [98])
    (.ocons typeKey (.jobj (.ocons typeKey (.jstr stringName) .onil)) .onil))

/-- The two-field list `[a: long, b: string]` of the spec's concrete
scenario. -/
def abFields : JsonArr := .acons aField (.acons bField .anil)

/-- The schema object with fields `a` (long) and `b` (string). -/
def abSchema : Json := .jobj (.ocons fieldsKey (.jarr abFields) .onil)

/-- A data block with `obj_count = 0`: `[0]`, size `5`, snappy payload
`0x00` (empty content), 4 checksum bytes, sync marker. -/
def c8Block : Bytes := [0, 10, 0, 0, 0, 0, 0] ++ c1Sync

/-- State about to read `c8Block` under the float-typed schema. -/
def c8State : PState :=
  { buffered := c8Block
    blen := (c8Block.length : Int)
    schema := floatFieldSchema
    codec := some snappyName
    state := .startDatablock
    syncmarker := some c1Sync }

/-- Input whose metadata contains a key with length prefix `0x03`
(zig-zag value `-2`), making the key slice `buffered[2 : len - 1]`
depend on how much of the stream is buffered when the metadata phase
first completes or fails. -/
def c3Input : Bytes := magicBytes ++ [2, 3] ++ avroSchemaKey ++ List.replicate 167 0

/-! ### Canonical OCF streams (specification side)

Builders for byte streams in canonical serialized form: every varint
canonically encoded, the schema metadata value a fixed point of
re-serialization, each block's records exactly filling the payload,
and the stored checksum correct.  The amended round-trip and
chunking-invariance claims quantify over these streams. -/

/-- A length-prefixed byte string. -/
def encStr (s : Bytes) : Bytes := encode_long (s.length : Int) ++ s

def metaEntryBytes (kv : Bytes × Bytes) : Bytes := encStr kv.1 ++ encStr kv.2

/-- One metadata map group holding all entries, then the zero
terminator count. -/
def metaBytes (entries : List (Bytes × Bytes)) : Bytes :=
  encode_long (entries.length : Int)
    ++ (entries.map metaEntryBytes).flatten ++ encode_long 0

/-- Canonical wire bytes of one record (one value per schema field). -/
def recordBytes (vals : List AvroVal) : Bytes :=
  (vals.map baseFieldBytes).flatten

/-- The concatenated record content of a block. -/
def blockContent (recs : List (List AvroVal)) : Bytes :=
  (recs.map recordBytes).flatten

/-- One data block: count, length field (compressed size + 4 checksum
bytes), compressed payload, CRC-32 of the uncompressed content, sync
marker. -/
def blockBytes (sc : Codec) (M : Bytes) (n : Nat) (R : Bytes) : Bytes :=
  encode_long (n : Int) ++ encode_long (((sc.compress R).length : Int) + 4)
    ++ sc.compress R ++ packUInt32LE (crc32 R) ++ M

/-- A complete canonical OCF stream. -/
def ocfStream (sc : Codec) (entries : List (Bytes × Bytes)) (M : Bytes)
    (blocks : List (List (List AvroVal))) : Bytes :=
  magicBytes ++ metaBytes entries ++ M
    ++ (blocks.map (fun recs => blockBytes sc M recs.length (blockContent recs))).flatten

/-- One schema field is well-typed against one decoded value: the
field object has `name` and a nested `type`/`type` of `long`/`int`
(value a 64-bit integer) or `string` (any byte string shorter than
`2^63`). -/
def fieldTypedB (f : Json) (v : AvroVal) : Bool :=
  match getItem f typeKey, getItem f nameKey with
  | .ok tObj, .ok _ =>
      match getItem tObj typeKey with
      | .ok tv =>
          if jeqStr tv longName || jeqStr tv intName then
            match v with
            | .vlong x => decide (-(2 ^ 63) ≤ x) && decide (x < 2 ^ 63)
            | .vstr _ => false
          else if jeqStr tv stringName then
            match v with
            | .vstr str => decide ((str.length : Int) < 2 ^ 63)
            | .vlong _ => false
          else false
      | .error _ => false
  | _, _ => false

def fieldsTypedB : JsonArr → List AvroVal → Bool
  | .anil, [] => true
  | .acons f xs, v :: vs => fieldTypedB f v && fieldsTypedB xs vs
  | .anil, _ :: _ => false
  | .acons _ _, [] => false

/-- Canonicity of one metadata entry: length prefixes in range, every
`avro.codec` entry carries `"snappy"`, and every `avro.schema` entry
carries a dict whose re-serialization after the transform's filter
hook reproduces the value bytes exactly. -/
def entryOk (t : Transform) (kv : Bytes × Bytes) : Prop :=
  ((kv.1.length : Int) < 2 ^ 63) ∧ ((kv.2.length : Int) < 2 ^ 63) ∧
  (kv.1 = avroCodecKey → kv.2 = snappyName) ∧
  (kv.1 = avroSchemaKey →
    ∃ j j2 : Json, loads kv.2 = some j ∧ dictCopy j = .ok j ∧
      filteredSchema t j = .ok j2 ∧ dumps j2 = kv.2)

/-- The codec attribute after processing the entries in order. -/
def codecAfter (c : Option Bytes) : List (Bytes × Bytes) → Option Bytes
  | [] => c
  | (k, v) :: es => codecAfter (if k = avroCodecKey then some v else c) es

/-- The stored (original) schema after processing the entries in
order. -/
def schemaAfter (sch : Json) : List (Bytes × Bytes) → Json
  | [] => sch
  | (k, v) :: es =>
      schemaAfter (if k = avroSchemaKey then (loads v).getD sch else sch) es

/-- A state template with its buffer replaced (all other attributes
kept). -/
def mkSt (st : PState) (p : Bytes) : PState :=
  { st with buffered := p, blen := (p.length : Int) }

/-- The JSON text `{"fields": []}` (14 bytes, with the space
`json.dumps` default separators insert), a fixed point of
re-serialization. -/
def c1SchemaSp : Bytes :=
  [123, 34, 102, 105, 101, 108, 100, 115, 34, 58, 32, 91, 93, 125]

/-- Canonical metadata entries: `avro.codec → "snappy"` and
`avro.schema → {"fields": []}`. -/
def c1Entries : List (Bytes × Bytes) :=
  [(avroCodecKey, snappyName), (avroSchemaKey, c1SchemaSp)]

/-- One data block holding one record with no fields. -/
def c1Blocks : List (List (List AvroVal)) := [[[]]]

/-- A complete canonical OCF stream under the literal snappy model. -/
def c1CanStream : Bytes := ocfStream snappyLit c1Entries c1Sync c1Blocks

/-! ### Properties of the varint codec -/

theorem readLongLoop_step (blen : Int) (rest : Bytes) (b ind n shift : ℕ) :
    readLongLoop blen rest b ind n shift =
      if b &&& 0x80 = 0 then
        .ok (unzigzag n, ind)
      else if blen ≤ (ind : Int) then
        .error .insufficientData
      else
        match rest with
        | [] => .error (.pyError "IndexError")
        | b2 :: rest2 =>
            readLongLoop blen rest2 b2 (ind + 1)
              (n ||| (b2 &&& 0x7F) <<< shift) (shift + 7) := by
  cases rest <;> rfl

theorem read_long_eq (buffered : Bytes) (blen : Int) :
    read_long buffered blen =
      if blen = 0 then .error .insufficientData
      else
        match buffered with
        | [] => .error (.pyError "IndexError")
        | b :: rest => readLongLoop blen rest b 1 (b &&& 0x7F) 7 := rfl

set_option maxRecDepth 10000 in
theorem contByte_and128 : ∀ r, r < 128 → (r + 128) &&& 128 ≠ 0 := by decide

set_option maxRecDepth 10000 in
theorem contByte_and127 : ∀ r, r < 128 → (r + 128) &&& 127 = r := by decide

set_option maxRecDepth 10000 in
theorem smallByte_and128 : ∀ r, r < 128 → r &&& 128 = 0 := by decide

set_option maxRecDepth 10000 in
theorem smallByte_and127 : ∀ r, r < 128 → r &&& 127 = r := by decide

set_option maxRecDepth 10000 in
theorem and128_iff_ge : ∀ x, x < 256 → ((x &&& 128 ≠ 0) ↔ 128 ≤ x) := by decide

theorem shiftLeft_lor (a b s : ℕ) : (a ||| b) <<< s = a <<< s ||| b <<< s := by
  apply Nat.eq_of_testBit_eq
  intro i
  simp [Nat.testBit_shiftLeft, Nat.testBit_lor, Bool.and_or_distrib_left]

theorem mod_lor_div_shift (m : ℕ) : m % 128 ||| (m / 128) <<< 7 = m := by
  apply Nat.eq_of_testBit_eq
  intro i
  have h1 : m % 128 = m % 2 ^ 7 := by norm_num
  have h2 : m / 128 = m >>> 7 := by rw [Nat.shiftRight_eq_div_pow]
  rw [h1, h2]
  simp only [Nat.testBit_lor, Nat.testBit_mod_two_pow, Nat.testBit_shiftLeft,
    Nat.testBit_shiftRight]
  by_cases h : i < 7
  · simp [h, Nat.not_le.2 h]
  · have h7 : 7 ≤ i := Nat.le_of_not_lt h
    have : 7 + (i - 7) = i := by omega
    simp [h, h7, this]

theorem varint_acc_step (n shift m : ℕ) :
    (n ||| (m % 128) <<< shift) ||| (m / 128) <<< (shift + 7) = n ||| m <<< shift := by
  have h1 : (m / 128) <<< (shift + 7) = ((m / 128) <<< 7) <<< shift := by
    rw [← Nat.shiftLeft_add, Nat.add_comm]
  rw [h1, Nat.lor_assoc, ← shiftLeft_lor, mod_lor_div_shift]

theorem encodeLoopF_irrel : ∀ (f g n : ℕ), n < f → n < g → encodeLoopF f n = encodeLoopF g n := by
  intro f
  induction f with
  | zero => intro g n h; omega
  | succ f IH =>
      intro g n hf hg
      match g, hg with
      | g + 1, hg =>
        by_cases hm : n < 128
        · rw [encodeLoopF, if_pos hm, encodeLoopF, if_pos hm]
        · have hlt : n / 128 < n := Nat.div_lt_self (by omega) (by omega)
          rw [encodeLoopF, if_neg hm, encodeLoopF, if_neg hm,
            IH g (n / 128) (by omega) (by omega)]

theorem encodeLoop_small {m : ℕ} (h : m < 128) : encodeLoop m = [m] := by
  rw [encodeLoop, encodeLoopF, if_pos h]

theorem encodeLoop_big {m : ℕ} (h : ¬ m < 128) :
    encodeLoop m = (m % 128 + 128) :: encodeLoop (m / 128) := by
  have hlt : m / 128 < m := Nat.div_lt_self (by omega) (by omega)
  rw [encodeLoop, encodeLoopF, if_neg h,
    encodeLoopF_irrel m (m / 128 + 1) (m / 128) (by omega) (by omega)]
  rfl

theorem encodeLoop_length_pos (m : ℕ) : 0 < (encodeLoop m).length := by
  by_cases h : m < 128
  · rw [encodeLoop_small h]; simp
  · rw [encodeLoop_big h]; simp

theorem readLongLoop_encode :
    ∀ (m : ℕ) (extra : Bytes) (blen : Int) (ind n shift b : ℕ),
      (ind : Int) + (encodeLoop m).length ≤ blen →
      b &&& 128 ≠ 0 →
      readLongLoop blen (encodeLoop m ++ extra) b ind n shift =
        .ok (unzigzag (n ||| m <<< shift), ind + (encodeLoop m).length) := by
  intro m
  induction m using Nat.strong_induction_on with
  | _ m IH =>
    intro extra blen ind n shift b hblen hb
    have hlp := encodeLoop_length_pos m
    have hind : ¬ (blen ≤ (ind : Int)) := by
      push_cast at hblen
      omega
    by_cases hm : m < 128
    · rw [encodeLoop_small hm] at hblen ⊢
      rw [readLongLoop_step, if_neg hb, if_neg hind]
      show readLongLoop blen extra m (ind + 1) (n ||| (m &&& 127) <<< shift) (shift + 7) = _
      rw [readLongLoop_step, if_pos (by rw [smallByte_and128 m hm]), smallByte_and127 m hm]
      rfl
    · rw [encodeLoop_big hm] at hblen ⊢
      rw [readLongLoop_step, if_neg hb, if_neg hind]
      show readLongLoop blen (encodeLoop (m / 128) ++ extra) (m % 128 + 128) (ind + 1)
        (n ||| ((m % 128 + 128) &&& 127) <<< shift) (shift + 7) = _
      have hblen2 : ((ind + 1 : ℕ) : Int) + (encodeLoop (m / 128)).length ≤ blen := by
        simp only [List.length_cons] at hblen
        push_cast at hblen ⊢
        omega
      rw [IH (m / 128) (Nat.div_lt_self (by omega) (by omega)) extra blen (ind + 1)
        (n ||| ((m % 128 + 128) &&& 127) <<< shift) (shift + 7) (m % 128 + 128) hblen2
        (contByte_and128 (m % 128) (Nat.mod_lt m (by omega)))]
      rw [contByte_and127 (m % 128) (Nat.mod_lt m (by omega))]
      rw [varint_acc_step]
      simp only [List.length_cons]
      have hlen2 : ind + 1 + (encodeLoop (m / 128)).length
          = ind + ((encodeLoop (m / 128)).length + 1) := by omega
      rw [hlen2]

theorem read_long_encodeLoop (m : ℕ) (rest : Bytes) (blen : Int)
    (h1 : ((encodeLoop m).length : Int) ≤ blen) :
    read_long (encodeLoop m ++ rest) blen = .ok (unzigzag m, (encodeLoop m).length) := by
  have hlp := encodeLoop_length_pos m
  have hne : ¬ (blen = 0) := by push_cast at h1; omega
  by_cases hm : m < 128
  · rw [encodeLoop_small hm] at h1 ⊢
    rw [read_long_eq, if_neg hne]
    show readLongLoop blen rest m 1 (m &&& 127) 7 = _
    rw [readLongLoop_step, if_pos (by rw [smallByte_and128 m hm]), smallByte_and127 m hm]
    rfl
  · rw [encodeLoop_big hm] at h1 ⊢
    rw [read_long_eq, if_neg hne]
    show readLongLoop blen (encodeLoop (m / 128) ++ rest) (m % 128 + 128) 1
      ((m % 128 + 128) &&& 127) 7 = _
    have hblen : ((1 : ℕ) : Int) + (encodeLoop (m / 128)).length ≤ blen := by
      simp only [List.length_cons] at h1
      push_cast at h1 ⊢
      omega
    rw [readLongLoop_encode (m / 128) rest blen 1
      ((m % 128 + 128) &&& 127) 7 (m % 128 + 128) hblen
      (contByte_and128 (m % 128) (Nat.mod_lt m (by omega)))]
    rw [contByte_and127 (m % 128) (Nat.mod_lt m (by omega))]
    have hv : (m % 128) ||| (m / 128) <<< 7 = m := mod_lor_div_shift m
    rw [hv]
    simp only [List.length_cons]
    rw [Nat.add_comm 1 (encodeLoop (m / 128)).length]

theorem int_xor_zero (x : ℤ) (hx : 0 ≤ x) : Int.xor x 0 = x := by
  obtain ⟨k, rfl⟩ := Int.eq_ofNat_of_zero_le hx
  show (Int.ofNat (k ^^^ 0)) = Int.ofNat k
  rw [Nat.xor_zero]

theorem fdiv_pow63_of_nonneg (v : ℤ) (h0 : 0 ≤ v) (h : v < 2 ^ 63) :
    Int.fdiv v (2 ^ 63) = 0 := by
  rw [Int.fdiv_eq_ediv _ (by norm_num)]
  exact Int.ediv_eq_zero_of_lt h0 h

theorem fdiv_pow63_of_neg (v : ℤ) (h0 : -(2 ^ 63) ≤ v) (h : v < 0) :
    Int.fdiv v (2 ^ 63) = -1 := by
  rw [Int.fdiv_eq_ediv _ (by norm_num)]
  have hv : v = (v + 2 ^ 63) + (-1) * 2 ^ 63 := by ring
  rw [hv, Int.add_mul_ediv_right _ _ (by norm_num)]
  rw [Int.ediv_eq_zero_of_lt (by omega) (by omega)]
  omega

theorem zigzag_of_nonneg (v : ℤ) (h0 : 0 ≤ v) (h : v < 2 ^ 63) :
    zigzag v = 2 * v := by
  rw [zigzag, fdiv_pow63_of_nonneg v h0 h, int_xor_zero _ (by omega)]
  ring

theorem zigzag_of_neg (v : ℤ) (h0 : -(2 ^ 63) ≤ v) (h : v < 0) :
    zigzag v = -2 * v - 1 := by
  rw [zigzag, fdiv_pow63_of_neg v h0 h]
  obtain ⟨m, rfl⟩ : ∃ m : ℕ, v = Int.negSucc m :=
    ⟨(-v - 1).toNat, by rw [Int.negSucc_eq]; omega⟩
  have h2 : Int.negSucc m * 2 = Int.negSucc (2 * m + 1) := by
    rw [Int.negSucc_eq, Int.negSucc_eq]
    push_cast
    ring
  have hm1 : (-1 : ℤ) = Int.negSucc 0 := rfl
  rw [h2, hm1]
  have h3 : Int.xor (Int.negSucc (2 * m + 1)) (Int.negSucc 0)
      = (((2 * m + 1) ^^^ 0 : ℕ) : ℤ) := rfl
  rw [h3, Nat.xor_zero, Int.negSucc_eq]
  push_cast
  ring

theorem unzigzag_even (a : ℕ) : unzigzag (2 * a) = (a : ℤ) := by
  rw [unzigzag]
  have h1 : (2 * a) &&& 1 = 0 := by rw [Nat.and_one_is_mod]; omega
  have h2 : (2 * a) >>> 1 = a := by rw [Nat.shiftRight_eq_div_pow]; omega
  rw [h1, h2]
  simpa using int_xor_zero (a : ℤ) (by positivity)

theorem unzigzag_odd (a : ℕ) : unzigzag (2 * a + 1) = Int.negSucc a := by
  rw [unzigzag]
  have h1 : (2 * a + 1) &&& 1 = 1 := by rw [Nat.and_one_is_mod]; omega
  have h2 : (2 * a + 1) >>> 1 = a := by rw [Nat.shiftRight_eq_div_pow]; omega
  rw [h1, h2]
  have hm1 : (-((1 : ℕ) : ℤ)) = Int.negSucc 0 := rfl
  rw [hm1]
  show (Int.negSucc (a ^^^ 0)) = Int.negSucc a
  rw [Nat.xor_zero]

theorem zigzag_toNat_of_nonneg (v : ℤ) (h0 : 0 ≤ v) (h : v < 2 ^ 63) :
    (zigzag v).toNat = 2 * v.toNat := by
  rw [zigzag_of_nonneg v h0 h]
  omega

theorem zigzag_toNat_of_neg (v : ℤ) (h0 : -(2 ^ 63) ≤ v) (h : v < 0) :
    (zigzag v).toNat = 2 * (-v - 1).toNat + 1 := by
  rw [zigzag_of_neg v h0 h]
  omega

theorem unzigzag_zigzag (v : ℤ) (h1 : -(2 ^ 63) ≤ v) (h2 : v < 2 ^ 63) :
    unzigzag (zigzag v).toNat = v := by
  rcases le_or_lt 0 v with h0 | h0
  · rw [zigzag_toNat_of_nonneg v h0 h2, unzigzag_even]
    omega
  · rw [zigzag_toNat_of_neg v h1 h0, unzigzag_odd, Int.negSucc_eq]
    omega

theorem read_long_encode_long (v : ℤ) (h1 : -(2 ^ 63) ≤ v) (h2 : v < 2 ^ 63)
    (rest : Bytes) (blen : Int) (hb : ((encode_long v).length : Int) ≤ blen) :
    read_long (encode_long v ++ rest) blen = .ok (v, (encode_long v).length) := by
  rw [encode_long] at hb ⊢
  rw [read_long_encodeLoop _ rest blen hb, unzigzag_zigzag v h1 h2]

theorem base128F_irrel : ∀ (f g n : ℕ), n < f → n < g → base128F f n = base128F g n := by
  intro f
  induction f with
  | zero => intro g n h; omega
  | succ f IH =>
      intro g n hf hg
      match g, hg with
      | g + 1, hg =>
        by_cases hm : n < 128
        · rw [base128F, if_pos hm, base128F, if_pos hm]
        · have hlt : n / 128 < n := Nat.div_lt_self (by omega) (by omega)
          rw [base128F, if_neg hm, base128F, if_neg hm,
            IH g (n / 128) (by omega) (by omega)]

theorem base128_small {m : ℕ} (h : m < 128) : base128 m = [m] := by
  rw [base128, base128F, if_pos h]

theorem base128_big {m : ℕ} (h : ¬ m < 128) :
    base128 m = (128 + m % 128) :: base128 (m / 128) := by
  have hlt : m / 128 < m := Nat.div_lt_self (by omega) (by omega)
  rw [base128, base128F, if_neg h,
    base128F_irrel m (m / 128 + 1) (m / 128) (by omega) (by omega)]
  rfl

theorem encodeLoop_eq_base128 : ∀ n : ℕ, encodeLoop n = base128 n := by
  intro n
  induction n using Nat.strong_induction_on with
  | _ n IH =>
    by_cases h : n < 128
    · rw [encodeLoop_small h, base128_small h]
    · rw [encodeLoop_big h, base128_big h, IH (n / 128) (Nat.div_lt_self (by omega) (by omega))]
      rw [Nat.add_comm]

theorem encode_long_canonical (v : ℤ) (h1 : -(2 ^ 63) ≤ v) (h2 : v < 2 ^ 63) :
    encode_long v = base128 (zigzagSpec v) := by
  rw [encode_long, encodeLoop_eq_base128, zigzagSpec]
  rcases le_or_lt 0 v with h0 | h0
  · rw [if_pos h0, zigzag_toNat_of_nonneg v h0 h2]
    congr 1
    omega
  · rw [if_neg (by omega), zigzag_toNat_of_neg v h1 h0]
    congr 1
    omega

/-! ### Insufficient-data characterization of `read_long` -/

theorem readLongLoop_insufficient_iff (blen : Int) :
    ∀ (rest : Bytes) (b ind n shift : ℕ), blen ≤ (ind : Int) + rest.length →
      (readLongLoop blen rest b ind n shift = .error .insufficientData ↔
        (b &&& 128 ≠ 0 ∧
          ∀ j : ℕ, ((ind + j : ℕ) : Int) < blen → rest.getD j 0 &&& 128 ≠ 0)) := by
  intro rest
  induction rest with
  | nil =>
      intro b ind n shift hlen
      by_cases hb : b &&& 128 = 0
      · rw [readLongLoop_step, if_pos hb]
        simp [hb]
      · by_cases hind : blen ≤ (ind : Int)
        · rw [readLongLoop_step, if_neg hb, if_pos hind]
          simp only [ne_eq, hb, not_false_eq_true, true_and, true_iff]
          intro j hj
          exfalso
          push_cast at hj hind
          omega
        · exfalso
          simp only [List.length_nil] at hlen
          push_cast at hlen
          omega
  | cons b2 rest2 IH =>
      intro b ind n shift hlen
      by_cases hb : b &&& 128 = 0
      · rw [readLongLoop_step, if_pos hb]
        simp [hb]
      · by_cases hind : blen ≤ (ind : Int)
        · rw [readLongLoop_step, if_neg hb, if_pos hind]
          simp only [ne_eq, hb, not_false_eq_true, true_and, true_iff]
          intro j hj
          exfalso
          push_cast at hj hind
          omega
        · rw [readLongLoop_step, if_neg hb, if_neg hind]
          show readLongLoop blen rest2 b2 (ind + 1)
            (n ||| (b2 &&& 127) <<< shift) (shift + 7) = _ ↔ _
          rw [IH b2 (ind + 1) (n ||| (b2 &&& 127) <<< shift) (shift + 7)
            (by simp only [List.length_cons] at hlen; push_cast at hlen ⊢; omega)]
          simp only [ne_eq, hb, not_false_eq_true, true_and]
          constructor
          · rintro ⟨hc, hrest⟩
            intro j hj
            match j with
            | 0 => simpa using hc
            | j + 1 =>
                have := hrest j (by push_cast at hj ⊢; omega)
                simpa using this
          · intro hall
            refine ⟨by simpa using hall 0 (by push_cast at hind ⊢; omega), ?_⟩
            intro j hj
            have := hall (j + 1) (by push_cast at hj ⊢; omega)
            simpa using this

theorem read_long_insufficient_iff (buf : Bytes) (hbytes : ∀ x ∈ buf, x < 256) :
    (read_long buf buf.length = .error .insufficientData ↔
      ∀ i, i < buf.length → 128 ≤ buf.getD i 0) := by
  match buf with
  | [] =>
      rw [read_long_eq]
      simp
  | b :: bs =>
      have hne : ¬ (((b :: bs).length : Int) = 0) := by
        push_cast [List.length_cons]
        omega
      rw [read_long_eq, if_neg hne]
      show readLongLoop ((b :: bs).length : Int) bs b 1 (b &&& 127) 7 = _ ↔ _
      rw [readLongLoop_insufficient_iff ((b :: bs).length : Int) bs b 1 (b &&& 127) 7
        (by push_cast [List.length_cons]; omega)]
      have hb256 : b < 256 := hbytes b (by simp)
      constructor
      · rintro ⟨hc, hrest⟩
        intro i hi
        match i with
        | 0 => exact (and128_iff_ge b hb256).1 hc
        | j + 1 =>
            have hjlen : j < bs.length := by
              simp only [List.length_cons] at hi
              omega
            have hj := hrest j (by push_cast [List.length_cons]; omega)
            have hmem : bs.getD j 0 ∈ b :: bs := by
              rw [List.getD_eq_getElem?_getD, List.getElem?_eq_getElem hjlen]
              exact List.mem_cons_of_mem b (by simp [List.getElem_mem])
            have h256 : bs.getD j 0 < 256 := hbytes _ hmem
            simpa using (and128_iff_ge _ h256).1 hj
      · intro hall
        refine ⟨(and128_iff_ge b hb256).2 (hall 0 (by simp)), ?_⟩
        intro j hj
        have hjlen : j < bs.length := by
          push_cast [List.length_cons] at hj
          omega
        have hmem : bs.getD j 0 ∈ b :: bs := by
          rw [List.getD_eq_getElem?_getD, List.getElem?_eq_getElem hjlen]
          exact List.mem_cons_of_mem b (by simp [List.getElem_mem])
        have h256 : bs.getD j 0 < 256 := hbytes _ hmem
        apply (and128_iff_ge _ h256).2
        have := hall (j + 1) (by simp only [List.length_cons]; omega)
        simpa using this


/-! ### Claims C7 and C10 -/

/-- C7: for every signed 64-bit integer `v`, `_encode_long` produces the
canonical zig-zag base-128 little-endian encoding of `v`; `_read_long`
applied to that encoding, possibly followed by extra bytes, returns `v`
together with a consumed-byte count equal to the encoding's length; and
`_read_long` raises the recoverable `AvroInsufficientDataException`
exactly when no byte with the top bit clear occurs within the available
bytes. -/
theorem C7_varint_codec_correct :
    (∀ v : ℤ, -(2 ^ 63) ≤ v → v < 2 ^ 63 →
      encode_long v = base128 (zigzagSpec v) ∧
      ∀ extra : Bytes,
        read_long (encode_long v ++ extra) ((encode_long v ++ extra).length : Int)
          = .ok (v, (encode_long v).length)) ∧
    (∀ buf : Bytes, (∀ x ∈ buf, x < 256) →
      (read_long buf (buf.length : Int) = .error .insufficientData ↔
        ∀ i, i < buf.length → 128 ≤ buf.getD i 0)) := by
  constructor
  · intro v h1 h2
    refine ⟨encode_long_canonical v h1 h2, fun extra => ?_⟩
    apply read_long_encode_long v h1 h2
    push_cast [List.length_append]
    omega
  · intro buf hb
    exact read_long_insufficient_iff buf hb

/-- Witness for C7 at `v = -3` with one extra byte, and at the
all-continuation buffer `[131, 130]`. -/
theorem C7_varint_codec_correct_witness :
    (encode_long (-3) = base128 (zigzagSpec (-3)) ∧
      read_long (encode_long (-3) ++ [7]) ((encode_long (-3) ++ [7]).length : Int)
        = .ok (-3, (encode_long (-3)).length)) ∧
    (read_long [131, 130] (([131, 130] : Bytes).length : Int) = .error .insufficientData ↔
      ∀ i, i < ([131, 130] : Bytes).length → 128 ≤ ([131, 130] : Bytes).getD i 0) := by
  constructor
  · have h := C7_varint_codec_correct.1 (-3) (by norm_num) (by norm_num)
    exact ⟨h.1, h.2 [7]⟩
  · exact C7_varint_codec_correct.2 [131, 130] (by decide)

/-- C10: a length prefix that zig-zag-decodes to a negative value makes
`_read_bytes` return, without raising, an empty payload and a consumed
count smaller than the size of the prefix itself: on the single byte
`0x01` (which `_read_long` decodes as `-1`, consuming 1 byte),
`_read_bytes` returns the empty string with consumed count `0`. -/
theorem C10_read_bytes_negative_length_no_progress :
    read_long [1] 1 = .ok (-1, 1) ∧ read_bytes [1] 1 = .ok ([], 0) := by
  constructor
  · rfl
  · rfl

/-! ### Claims C1 (counterexample), C3 (counterexample), C9 -/

set_option maxRecDepth 1000000 in
set_option maxHeartbeats 2000000 in
/-- C1 counterexample: `c1Stream` is a complete, valid OCF stream with
codec `snappy` (the driver consumes it fully and ends in a clean
`StopIteration`), yet the identity (base-class) transcoder's
concatenated output differs from the input byte stream: the
`avro.schema` metadata value is re-serialized by `json.dumps`, which
inserts a space after the `:` separator. -/
theorem C1_roundtrip_identity_counterexample :
    (runAll snappyLit .base 8 (initState c1Stream) []).2 = .stopIteration ∧
    (runAll snappyLit .base 8 (initState c1Stream) []).1.flatten ≠ c1Stream := by
  constructor
  · rfl
  · decide

set_option maxRecDepth 1000000 in
set_option maxHeartbeats 2000000 in
/-- C3 counterexample: the same total bytes `c3Input`, delivered as a
single chunk versus split after byte 18, produce different
concatenated outputs.  The metadata key's length prefix `0x03` decodes
to `-2`, so the key is the Python slice `buffered[2 : len(buffered) - 1]`,
whose content depends on how much of the stream happens to be buffered
when the metadata step runs: in the split run it is exactly
`"avro.schema"` (leading to a fatal `json.loads` failure on the
mis-positioned value), in the single-chunk run it is longer garbage
(taking the pass-through path and completing the metadata phase). -/
theorem C3_chunking_counterexample :
    c3Input.take 18 ++ [c3Input.drop 18].flatten = c3Input ∧
    (runAll snappyLit .base 8 (initState c3Input) []).1.flatten ≠
      (runAll snappyLit .base 8 (initState (c3Input.take 18)) [c3Input.drop 18]).1.flatten := by
  constructor
  · rfl
  · decide

/-- C9: with the upstream source exhausted while the state machine is
mid-header (initial body `"Obj"`, 3 bytes, state still
`AVRO_HEADER_MAGIC`), the parse step signals the recoverable
`AvroInsufficientDataException`, and the driver — finding no further
chunk — ends as a plain `StopIteration`, i.e. a silent, apparently
normal end of iteration instead of a fatal truncation error. -/
theorem C9_truncation_silently_accepted :
    (initState [79, 98, 106]).state = .headerMagic ∧
    parse_next_item snappyLit .base (initState [79, 98, 106]) = .error .insufficientData ∧
    runAll snappyLit .base 2 (initState [79, 98, 106]) [] = ([], .stopIteration) :=
  ⟨rfl, rfl, rfl⟩

/-! ### Claim C4: sync marker capture and mismatch -/

theorem runAll_fatal_of_parsingFailure (sc : Codec) (t : Transform) (st : PState)
    (chunks : List Bytes) (fuel : Nat) (msg : String)
    (h : parse_next_item sc t st = .error (.parsingFailure msg)) :
    runAll sc t (fuel + 1) st chunks = ([], .fatal (.parsingFailure msg)) := by
  simp only [runAll, h]

/-- C4: the 16-byte sync marker is captured from its first occurrence
after file metadata (`syncmarker = None`); afterwards, a 16-byte window
differing byte-for-byte from the captured marker makes
`_parse_sync_marker` raise the fatal sync-marker `ParsingFailure`; and
any step that raises a `ParsingFailure` makes the stream driver yield
no further output (it stops immediately with that fatal error). -/
theorem C4_sync_marker_consistency :
    (∀ st : PState, st.syncmarker = none → 16 ≤ st.blen →
      parse_sync_marker st = .ok (pySlice st.buffered 0 16,
        { st with
            buffered := pySliceFrom st.buffered 16
            blen := st.blen - 16
            state := .startDatablock
            syncmarker := some (pySlice st.buffered 0 16) })) ∧
    (∀ (st : PState) (m : Bytes), st.syncmarker = some m → 16 ≤ st.blen →
      pySlice st.buffered 0 16 ≠ m →
      parse_sync_marker st
        = .error (.parsingFailure "Sync Marker does not match marker in header")) ∧
    (∀ (sc : Codec) (t : Transform) (st : PState) (chunks : List Bytes)
        (fuel : Nat) (msg : String),
      parse_next_item sc t st = .error (.parsingFailure msg) →
      runAll sc t (fuel + 1) st chunks = ([], .fatal (.parsingFailure msg))) := by
  refine ⟨?_, ?_, ?_⟩
  · intro st hnone h16
    rw [parse_sync_marker, if_neg (by omega), hnone]
  · intro st m hsome h16 hne
    rw [parse_sync_marker, if_neg (by omega), hsome]
    simp only [hne, ite_true, ne_eq, not_false_eq_true, if_true]
  · intro sc t st chunks fuel msg h
    exact runAll_fatal_of_parsingFailure sc t st chunks fuel msg h

/-- Witness for C4: capture at a fresh marker state, mismatch error at
a state holding a different marker, and the driver stopping with that
fatal error. -/
theorem C4_sync_marker_consistency_witness :
    (parse_sync_marker
        { buffered := c1Sync ++ [7], blen := 17, schema := .jobj .onil,
          codec := none, state := .syncMarker, syncmarker := none }
      = .ok (pySlice (c1Sync ++ [7]) 0 16,
        { buffered := pySliceFrom (c1Sync ++ [7]) 16, blen := 17 - 16,
          schema := .jobj .onil, codec := none, state := .startDatablock,
          syncmarker := some (pySlice (c1Sync ++ [7]) 0 16) })) ∧
    (parse_sync_marker
        { buffered := List.replicate 16 9, blen := 16, schema := .jobj .onil,
          codec := none, state := .syncMarker, syncmarker := some c1Sync }
      = .error (.parsingFailure "Sync Marker does not match marker in header")) ∧
    (runAll snappyLit .base 3
        { buffered := List.replicate 16 9, blen := 16, schema := .jobj .onil,
          codec := none, state := .syncMarker, syncmarker := some c1Sync } []
      = ([], .fatal (.parsingFailure "Sync Marker does not match marker in header"))) := by
  refine ⟨?_, ?_, ?_⟩
  · exact C4_sync_marker_consistency.1 _ rfl (by decide)
  · exact C4_sync_marker_consistency.2.1 _ c1Sync rfl (by decide) (by decide)
  · exact C4_sync_marker_consistency.2.2 snappyLit .base _ [] 2 _ (by rfl)

/-! ### Claim C2: block checksum is over the re-encoded records -/

/-- C2: whenever `_parse_data_block` succeeds, its emitted bytes are
the verbatim object-count prefix, the new length field, the compressed
payload, then a 4-byte value that is exactly `crc32` of `R` — the
concatenation of the block's re-encoded (post-transform, uncompressed)
records as produced by the record loop — and the sync marker.  The
checksum is computed from `R`, not from the original record bytes. -/
theorem C2_block_checksum_over_reencoded_records :
    ∀ (sc : Codec) (t : Transform) (st : PState) (out : Bytes) (st2 : PState),
      parse_data_block sc t st = .ok (out, st2) →
      ∃ (oc bs : Int) (used used2 : Nat) (inflated R : Bytes) (inf : Int) (marker : Bytes),
        st.codec = some snappyName ∧
        read_long st.buffered st.blen = .ok (oc, used) ∧
        read_long (pySliceFrom st.buffered (used : Int)) (st.blen - (used : Int))
          = .ok (bs, used2) ∧
        sc.decompress
            (pySlice st.buffered ((used : Int) + (used2 : Int))
              ((used : Int) + (used2 : Int) + bs - 4)) = some inflated ∧
        recordsLoop t st.schema oc.toNat inflated 0 [] = .ok (R, inf) ∧
        out = pySlice st.buffered 0 used
          ++ encode_long (((sc.compress R).length : Int) + 4)
          ++ sc.compress R
          ++ packUInt32LE (crc32 R)
          ++ marker := by
  intro sc t st out st2 h
  unfold parse_data_block at h
  cases h1 : read_long st.buffered st.blen with
  | error e => rw [h1] at h; exact absurd h (by simp [bind, Except.bind])
  | ok p1 =>
    obtain ⟨oc, used⟩ := p1
    rw [h1] at h
    simp only [bind, Except.bind] at h
    cases h2 : read_long (pySliceFrom st.buffered ((used : Nat) : Int))
        (st.blen - ((used : Nat) : Int)) with
    | error e => rw [h2] at h; exact absurd h (by simp)
    | ok p2 =>
      obtain ⟨bs, used2⟩ := p2
      rw [h2] at h
      simp only at h
      split at h
      · exact absurd h (by simp)
      · by_cases hc : st.codec = some snappyName
        · rw [if_pos hc] at h
          cases h3 : sc.decompress (pySlice st.buffered ((used : Int) + (used2 : Int))
              ((used : Int) + (used2 : Int) + bs - 4)) with
          | none => rw [h3] at h; exact absurd h (by simp)
          | some inflated =>
            rw [h3] at h
            simp only at h
            cases h4 : recordsLoop t st.schema oc.toNat inflated 0 [] with
            | error e => rw [h4] at h; exact absurd h (by simp)
            | ok p4 =>
              obtain ⟨R, inf⟩ := p4
              rw [h4] at h
              simp only [if_pos hc] at h
              cases h5 : parse_sync_marker
                  { st with
                      buffered := pySliceFrom st.buffered ((used : Int) + (used2 : Int) + bs)
                      blen := st.blen - ((used : Int) + (used2 : Int) + bs) } with
              | error e => rw [h5] at h; exact absurd h (by simp)
              | ok p5 =>
                obtain ⟨marker, st3⟩ := p5
                rw [h5] at h
                simp only [Except.ok.injEq, Prod.mk.injEq] at h
                refine ⟨oc, bs, used, used2, inflated, R, inf, marker,
                  hc, rfl, h2, h3, h4, ?_⟩
                rw [← h.1]
        · rw [if_neg hc] at h
          split at h
          · exact absurd h (by simp)
          · exact absurd h (by simp)

/-- Witness for C2 at the concrete block `c1Block` under `c2State`. -/
theorem C2_block_checksum_over_reencoded_records_witness :
    ∃ (oc bs : Int) (used used2 : Nat) (inflated R : Bytes) (inf : Int) (marker : Bytes),
      c2State.codec = some snappyName ∧
      read_long c2State.buffered c2State.blen = .ok (oc, used) ∧
      read_long (pySliceFrom c2State.buffered (used : Int)) (c2State.blen - (used : Int))
        = .ok (bs, used2) ∧
      snappyLit.decompress
          (pySlice c2State.buffered ((used : Int) + (used2 : Int))
            ((used : Int) + (used2 : Int) + bs - 4)) = some inflated ∧
      recordsLoop .base c2State.schema oc.toNat inflated 0 [] = .ok (R, inf) ∧
      c1Block = pySlice c2State.buffered 0 used
        ++ encode_long (((snappyLit.compress R).length : Int) + 4)
        ++ snappyLit.compress R
        ++ packUInt32LE (crc32 R)
        ++ marker :=
  C2_block_checksum_over_reencoded_records snappyLit .base c2State c1Block
    { buffered := [], blen := 0, schema := emptyFieldsSchema,
      codec := some snappyName, state := .startDatablock,
      syncmarker := some c1Sync } (by rfl)

/-! ### Record decoding refinement -/

theorem reencode_long_ok (t : Transform) (ftype fname : Json) (v : Int)
    (h : (jeqStr ftype longName || jeqStr ftype intName) = true) :
    reencode_field t (.vlong v) ftype fname
      = .ok (pieceBytes t (fname, ftype, .vlong v)) := by
  cases t with
  | base =>
      simp only [reencode_field, reencode_field_base, h, if_true, pieceBytes, baseFieldBytes]
  | strip F =>
      simp only [reencode_field, reencode_field_base, h, if_true, pieceBytes, baseFieldBytes,
        pieceStripped]
      split
      · rfl
      · rfl

theorem reencode_str_ok (t : Transform) (ftype fname : Json) (str : Bytes)
    (h : (jeqStr ftype longName || jeqStr ftype intName) = false) :
    reencode_field t (.vstr str) ftype fname
      = .ok (pieceBytes t (fname, ftype, .vstr str)) := by
  cases t with
  | base =>
      simp only [reencode_field, reencode_field_base, h, if_false, Bool.false_eq_true,
        pieceBytes, baseFieldBytes]
  | strip F =>
      simp only [reencode_field, reencode_field_base, h, if_false, Bool.false_eq_true,
        pieceBytes, baseFieldBytes, pieceStripped]
      split
      · rfl
      · rfl

theorem parseRecordFields_acc (t : Transform) :
    ∀ (xs : JsonArr) (source : Bytes) (rem skip : Int) (enc : Bytes),
      parseRecordFields t xs source rem skip enc =
        (parseRecordFields t xs source rem skip []).map (fun p => (enc ++ p.1, p.2))
  | .anil, source, rem, skip, enc => by
      simp [parseRecordFields, Except.map]
  | .acons f xs, source, rem, skip, enc => by
      have IH := parseRecordFields_acc t xs
      simp only [parseRecordFields, bind, Except.bind]
      cases getItem f typeKey with
      | error e => simp [Except.map]
      | ok ftypeObj =>
        dsimp only
        cases getItem ftypeObj typeKey with
        | error e => simp [Except.map]
        | ok ftype =>
          dsimp only
          by_cases h1 : (jeqStr ftype longName || jeqStr ftype intName) = true
          · simp only [h1, if_true]
            cases read_long (pySliceFrom source skip) (rem - skip) with
            | error e => simp [Except.map]
            | ok p =>
              dsimp only
              cases getItem f nameKey with
              | error e => simp [Except.map]
              | ok fname =>
                dsimp only
                cases reencode_field t (.vlong p.1) ftype fname with
                | error e => simp [Except.map]
                | ok enc2 =>
                  dsimp only
                  rw [IH source rem (skip + (p.2 : Int)) (enc ++ enc2),
                    IH source rem (skip + (p.2 : Int)) ([] ++ enc2)]
                  cases parseRecordFields t xs source rem (skip + (p.2 : Int)) [] with
                  | error e => simp [Except.map]
                  | ok q => simp [Except.map]
          · rw [Bool.not_eq_true] at h1
            simp only [h1, Bool.false_eq_true, if_false]
            by_cases h2 : jeqStr ftype stringName = true
            · simp only [h2, if_true]
              cases read_bytes (pySliceFrom source skip) (rem - skip) with
              | error e => simp [Except.map]
              | ok p =>
                dsimp only
                cases getItem f nameKey with
                | error e => simp [Except.map]
                | ok fname =>
                  dsimp only
                  cases reencode_field t (.vstr p.1) ftype fname with
                  | error e => simp [Except.map]
                  | ok enc2 =>
                    dsimp only
                    rw [IH source rem (skip + p.2) (enc ++ enc2),
                      IH source rem (skip + p.2) ([] ++ enc2)]
                    cases parseRecordFields t xs source rem (skip + p.2) [] with
                    | error e => simp [Except.map]
                    | ok q => simp [Except.map]
            · rw [Bool.not_eq_true] at h2
              simp only [h2, Bool.false_eq_true, if_false]
              simp [Except.map]

theorem parseRecordFields_pieces (t : Transform) :
    ∀ (xs : JsonArr) (source : Bytes) (rem skip : Int),
      parseRecordFields t xs source rem skip [] =
        (recordPieces xs source rem skip).map
          (fun p => ((p.1.map (pieceBytes t)).flatten, p.2))
  | .anil, source, rem, skip => by
      simp [parseRecordFields, recordPieces, Except.map]
  | .acons f xs, source, rem, skip => by
      have IH := parseRecordFields_pieces t xs
      simp only [parseRecordFields, recordPieces, bind, Except.bind]
      cases getItem f typeKey with
      | error e => simp [Except.map]
      | ok ftypeObj =>
        dsimp only
        cases getItem ftypeObj typeKey with
        | error e => simp [Except.map]
        | ok ftype =>
          dsimp only
          by_cases h1 : (jeqStr ftype longName || jeqStr ftype intName) = true
          · simp only [h1, if_true]
            cases read_long (pySliceFrom source skip) (rem - skip) with
            | error e => simp [Except.map]
            | ok p =>
              dsimp only
              cases getItem f nameKey with
              | error e => simp [Except.map]
              | ok fname =>
                dsimp only
                rw [reencode_long_ok t ftype fname p.1 h1]
                dsimp only
                rw [parseRecordFields_acc t xs source rem (skip + (p.2 : Int)),
                  IH source rem (skip + (p.2 : Int))]
                cases recordPieces xs source rem (skip + (p.2 : Int)) with
                | error e => simp [Except.map]
                | ok q => simp [Except.map, pieceBytes]
          · rw [Bool.not_eq_true] at h1
            simp only [h1, Bool.false_eq_true, if_false]
            by_cases h2 : jeqStr ftype stringName = true
            · simp only [h2, if_true]
              cases read_bytes (pySliceFrom source skip) (rem - skip) with
              | error e => simp [Except.map]
              | ok p =>
                dsimp only
                cases getItem f nameKey with
                | error e => simp [Except.map]
                | ok fname =>
                  dsimp only
                  rw [reencode_str_ok t ftype fname p.1 h1]
                  dsimp only
                  rw [parseRecordFields_acc t xs source rem (skip + p.2),
                    IH source rem (skip + p.2)]
                  cases recordPieces xs source rem (skip + p.2) with
                  | error e => simp [Except.map]
                  | ok q => simp [Except.map, pieceBytes]
            · rw [Bool.not_eq_true] at h2
              simp only [h2, Bool.false_eq_true, if_false]
              simp [Except.map]

theorem dictCopy_ok (j o : Json) (h : dictCopy j = .ok o) : o = j := by
  cases j with
  | jobj kvs => simp only [dictCopy, Except.ok.injEq] at h; exact h.symm
  | jnull => simp [dictCopy] at h
  | jbool b => simp [dictCopy] at h
  | jnum n => simp [dictCopy] at h
  | jstr s2 => simp [dictCopy] at h
  | jarr xs => simp [dictCopy] at h

/-! ### Claim C5: decoding follows the original schema -/

/-- C5: when `_read_avro_schema` succeeds, the schema stored for
decoding (`self.schema`) is exactly the object `json.loads` returned —
unfiltered — while the bytes appended to the output metadata are the
re-serialization of the filtered copy; and the bytes a record decode
consumes are independent of the transform, so a filter hook returning
a different field list never changes which fields are decoded from the
input. -/
theorem C5_decode_follows_original_schema :
    (∀ (t : Transform) (buffered : Bytes) (blen bused : Int) (saved : Bytes)
        (bused2 : Int) (saved2 : Bytes) (schema2 : Json),
      read_avro_schema t buffered blen bused saved = .ok (bused2, saved2, schema2) →
      ∃ (sbytes : Bytes) (used : Int) (j j2 : Json),
        read_bytes (pySliceFrom buffered bused) (blen - bused) = .ok (sbytes, used) ∧
        loads sbytes = some j ∧
        schema2 = j ∧
        filteredSchema t j = .ok j2 ∧
        saved2 = saved ++ encode_long ((dumps j2).length : Int) ++ dumps j2) ∧
    (∀ (t : Transform) (schema : Json) (source : Bytes),
      (parse_single_record t schema source).map (fun p => p.2)
        = (parse_single_record .base schema source).map (fun p => p.2)) := by
  constructor
  · intro t buffered blen bused saved bused2 saved2 schema2 h
    unfold read_avro_schema at h
    cases h1 : read_bytes (pySliceFrom buffered bused) (blen - bused) with
    | error e => rw [h1] at h; exact absurd h (by simp [bind, Except.bind])
    | ok p1 =>
      obtain ⟨sbytes, used⟩ := p1
      rw [h1] at h
      simp only [bind, Except.bind] at h
      cases h2 : loads sbytes with
      | none => rw [h2] at h; exact absurd h (by simp)
      | some j =>
        rw [h2] at h
        dsimp only at h
        cases h3 : dictCopy j with
        | error e => rw [h3] at h; exact absurd h (by simp)
        | ok orig =>
          rw [h3] at h
          dsimp only at h
          cases h4 : filteredSchema t j with
          | error e => rw [h4] at h; exact absurd h (by simp)
          | ok j2 =>
            rw [h4] at h
            simp only [Except.ok.injEq, Prod.mk.injEq] at h
            refine ⟨sbytes, used, j, j2, rfl, h2, ?_, h4, ?_⟩
            · rw [← h.2.2, dictCopy_ok j orig h3]
            · rw [← h.2.1]
  · intro t schema source
    unfold parse_single_record
    cases getItem schema fieldsKey with
    | error e => rfl
    | ok fields =>
      dsimp only [bind, Except.bind]
      cases fields with
      | jarr xs =>
          dsimp only
          rw [parseRecordFields_pieces t xs source ((source.length : Nat) : Int) 0,
            parseRecordFields_pieces .base xs source ((source.length : Nat) : Int) 0]
          cases recordPieces xs source ((source.length : Nat) : Int) 0 with
          | error e => rfl
          | ok q => simp [Except.map]
      | jnull => rfl
      | jbool b => rfl
      | jnum n => rfl
      | jstr s2 => rfl
      | jobj kvs => rfl

/-- Witness for C5: the `{"fields":[]}` schema entry read with the
base transform, and decode-independence at a stripping transform. -/
theorem C5_decode_follows_original_schema_witness :
    (∃ (sbytes : Bytes) (used : Int) (j j2 : Json),
      read_bytes (pySliceFrom ((26 : Nat) :: c1Schema) (0 : Int)) ((14 : Int) - 0)
        = .ok (sbytes, used) ∧
      loads sbytes = some j ∧
      emptyFieldsSchema = j ∧
      filteredSchema .base j = .ok j2 ∧
      ([28, 123, 34, 102, 105, 101, 108, 100, 115, 34, 58, 32, 91, 93, 125] : Bytes)
        = [] ++ encode_long ((dumps j2).length : Int) ++ dumps j2) ∧
    ((parse_single_record (.strip [[98]]) emptyFieldsSchema []).map (fun p => p.2)
      = (parse_single_record .base emptyFieldsSchema []).map (fun p => p.2)) := by
  constructor
  · exact C5_decode_follows_original_schema.1 .base ((26 : Nat) :: c1Schema) 14 0 [] 14
      [28, 123, 34, 102, 105, 101, 108, 100, 115, 34, 58, 32, 91, 93, 125]
      emptyFieldsSchema (by rfl)
  · exact C5_decode_follows_original_schema.2 (.strip [[98]]) emptyFieldsSchema []

/-! ### Claim C6: stripping removes exactly the configured fields -/

theorem stripFields_ok (F : List Bytes) :
    ∀ (xs xs2 : JsonArr), stripFields F xs = .ok xs2 → xs2 = arrFilterOut F xs
  | .anil, xs2, h => by
      simp only [stripFields, Except.ok.injEq] at h
      rw [← h]
      rfl
  | .acons f xs, xs2, h => by
      have IH := stripFields_ok F xs
      simp only [stripFields, bind, Except.bind] at h
      cases hn : getItem f nameKey with
      | error e => rw [hn] at h; exact absurd h (by simp)
      | ok nm =>
        rw [hn] at h
        dsimp only at h
        cases hs : stripFields F xs with
        | error e => rw [hs] at h; exact absurd h (by simp)
        | ok rest2 =>
          rw [hs] at h
          dsimp only at h
          have hrest := IH rest2 hs
          have hdone : ∀ b : Bool, fieldNamedIn F f = b →
              ((if b = true then (Except.ok rest2 : Except AvroErr JsonArr)
                else Except.ok (JsonArr.acons f rest2)) = Except.ok xs2) →
              xs2 = arrFilterOut F (JsonArr.acons f xs) := by
            intro b hb hh
            cases b with
            | false =>
                rw [if_neg (by simp)] at hh
                injection hh with hh2
                rw [← hh2, hrest]
                show _ = arrFilterOut F (JsonArr.acons f xs)
                simp [arrFilterOut, hb]
            | true =>
                rw [if_pos (rfl : true = true)] at hh
                injection hh with hh2
                rw [← hh2, hrest]
                show _ = arrFilterOut F (JsonArr.acons f xs)
                simp [arrFilterOut, hb]
          cases nm with
          | jstr s2 => exact hdone (F.contains s2) (by simp [fieldNamedIn, hn]) h
          | jnull => exact hdone false (by simp [fieldNamedIn, hn]) h
          | jbool b => exact hdone false (by simp [fieldNamedIn, hn]) h
          | jnum n => exact hdone false (by simp [fieldNamedIn, hn]) h
          | jarr ys => exact hdone false (by simp [fieldNamedIn, hn]) h
          | jobj kvs => exact hdone false (by simp [fieldNamedIn, hn]) h

theorem flatten_pieceBytes_strip (F : List Bytes) :
    ∀ ps : List (Json × Json × AvroVal),
      (ps.map (pieceBytes (.strip F))).flatten
        = ((ps.filter (fun p => ! pieceStripped F p)).map
            (fun p => baseFieldBytes p.2.2)).flatten := by
  intro ps
  induction ps with
  | nil => rfl
  | cons p ps IH =>
      by_cases hp : pieceStripped F p = true
      · simp only [List.map_cons, List.flatten_cons, List.filter_cons, hp,
          Bool.not_true, Bool.false_eq_true, if_false, IH, pieceBytes]
        simp [hp]
      · rw [Bool.not_eq_true] at hp
        simp only [List.map_cons, List.flatten_cons, List.filter_cons, hp,
          Bool.not_false, if_true, IH, pieceBytes]
        simp [hp]

theorem recordsLoop_concat (t : Transform) (schema : Json) :
    ∀ (k : Nat) (inflated : Bytes) (infused : Int) (acc R : Bytes) (inf : Int),
      recordsLoop t schema k inflated infused acc = .ok (R, inf) →
      ∃ recs : List Bytes, recs.length = k ∧ R = acc ++ recs.flatten
  | 0, inflated, infused, acc, R, inf, h => by
      simp only [recordsLoop, Except.ok.injEq, Prod.mk.injEq] at h
      exact ⟨[], rfl, by simp [← h.1]⟩
  | k + 1, inflated, infused, acc, R, inf, h => by
      simp only [recordsLoop, bind, Except.bind] at h
      cases hr : parse_single_record t schema (pySliceFrom inflated infused) with
      | error e => rw [hr] at h; exact absurd h (by simp)
      | ok p =>
        rw [hr] at h
        dsimp only at h
        obtain ⟨recs, hlen, hR⟩ :=
          recordsLoop_concat t schema k inflated (infused + p.2) (acc ++ p.1) R inf h
        exact ⟨p.1 :: recs, by simp [hlen], by simp [hR, List.append_assoc]⟩

/-- C6: for a stripping transform with field set `F` — (1) the output
schema's field list is the original list with exactly the fields named
in `F` removed, in order; (2) every re-encoded record consists of
exactly the canonical encodings of the decoded fields not named in
`F`, in original order (fields in `F` contribute zero bytes); (3) a
block's re-encoded content is the concatenation of one such record per
object count, for every count including zero. -/
theorem C6_stripping_completeness :
    (∀ (F : List Bytes) (xs : JsonArr) (j2 : Json),
      parse_schema_fields (.strip F) (.jarr xs) = .ok j2 →
      j2 = .jarr (arrFilterOut F xs)) ∧
    (∀ (F : List Bytes) (schema : Json) (source out : Bytes) (sk : Int),
      parse_single_record (.strip F) schema source = .ok (out, sk) →
      ∃ (xs : JsonArr) (ps : List (Json × Json × AvroVal)),
        getItem schema fieldsKey = .ok (.jarr xs) ∧
        recordPieces xs source ((source.length : Nat) : Int) 0 = .ok (ps, sk) ∧
        out = ((ps.filter (fun p => ! pieceStripped F p)).map
          (fun p => baseFieldBytes p.2.2)).flatten) ∧
    (∀ (t : Transform) (schema : Json) (k : Nat) (inflated : Bytes) (infused : Int)
        (acc R : Bytes) (inf : Int),
      recordsLoop t schema k inflated infused acc = .ok (R, inf) →
      ∃ recs : List Bytes, recs.length = k ∧ R = acc ++ recs.flatten) := by
  refine ⟨?_, ?_, ?_⟩
  · intro F xs j2 h
    simp only [parse_schema_fields, Except.map] at h
    cases hs : stripFields F xs with
    | error e => rw [hs] at h; exact absurd h (by simp)
    | ok xs2 =>
      rw [hs] at h
      simp only [Except.ok.injEq] at h
      rw [← h, stripFields_ok F xs xs2 hs]
  · intro F schema source out sk h
    unfold parse_single_record at h
    cases hg : getItem schema fieldsKey with
    | error e => rw [hg] at h; exact absurd h (by simp [bind, Except.bind])
    | ok fields =>
      rw [hg] at h
      simp only [bind, Except.bind] at h
      cases fields with
      | jarr xs =>
          dsimp only at h
          rw [parseRecordFields_pieces (.strip F) xs source ((source.length : Nat) : Int) 0] at h
          cases hp : recordPieces xs source ((source.length : Nat) : Int) 0 with
          | error e => rw [hp] at h; exact absurd h (by simp [Except.map])
          | ok q =>
            rw [hp] at h
            simp only [Except.map, Except.ok.injEq, Prod.mk.injEq] at h
            refine ⟨xs, q.1, rfl, ?_, ?_⟩
            · rw [hp, ← h.2]
            · rw [← h.1, flatten_pieceBytes_strip]
      | jnull => exact absurd h (by simp)
      | jbool b => exact absurd h (by simp)
      | jnum n => exact absurd h (by simp)
      | jstr s2 => exact absurd h (by simp)
      | jobj kvs => exact absurd h (by simp)
  · intro t schema k inflated infused acc R inf h
    exact recordsLoop_concat t schema k inflated infused acc R inf h

/-- Witness for C6 on the spec's concrete scenario: schema
`[a: long, b: string]`, strip set `{"b"}`, record `{a: 5, b: "hi"}`
(bytes `[10, 4, 104, 105]`), and a two-record block. -/
theorem C6_stripping_completeness_witness :
    ((.jarr (.acons aField .anil) : Json) = .jarr (arrFilterOut [[98]] abFields)) ∧
    (∃ (xs : JsonArr) (ps : List (Json × Json × AvroVal)),
      getItem abSchema fieldsKey = .ok (.jarr xs) ∧
      recordPieces xs [10, 4, 104, 105] 4 0 = .ok (ps, 4) ∧
      [10] = ((ps.filter (fun p => ! pieceStripped [[98]] p)).map
        (fun p => baseFieldBytes p.2.2)).flatten) ∧
    (∃ recs : List Bytes, recs.length = 2 ∧
      ([10, 4, 104, 105, 5, 4, 111, 107] : Bytes) = [] ++ recs.flatten) := by
  refine ⟨?_, ?_, ?_⟩
  · exact C6_stripping_completeness.1 [[98]] abFields (.jarr (.acons aField .anil)) (by rfl)
  · exact C6_stripping_completeness.2.1 [[98]] abSchema [10, 4, 104, 105] [10] 4 (by rfl)
  · exact C6_stripping_completeness.2.2 .base abSchema 2
      [10, 4, 104, 105, 5, 4, 111, 107] 0 [] [10, 4, 104, 105, 5, 4, 111, 107] 8 (by rfl)

/-! ### Claim C8: unsupported type and codec -/

set_option maxRecDepth 100000 in
/-- C8 counterexample: `c8State`'s schema declares a field of the
unsupported type `"float"`, yet `_parse_data_block` on a block whose
object count is zero succeeds and emits output — the record loop never
runs, so the type is never examined and no `ParsingFailure` is
raised. -/
theorem C8_unsupported_type_counterexample :
    getItem floatFieldSchema fieldsKey = .ok (.jarr (.acons floatField .anil)) ∧
    getItem floatField typeKey = .ok (.jobj (.ocons typeKey (.jstr floatName) .onil)) ∧
    parse_data_block snappyLit .base c8State
      = .ok (c8Block,
        { buffered := [], blen := 0, schema := floatFieldSchema,
          codec := some snappyName, state := .startDatablock,
          syncmarker := some c1Sync }) :=
  ⟨rfl, rfl, rfl⟩

theorem parseRecordFields_unsupported (t : Transform) :
    ∀ (pre : JsonArr) (f : Json) (rest : JsonArr) (source : Bytes) (rem skip : Int)
      (enc : Bytes) (ps : List (Json × Json × AvroVal)) (skip2 : Int) (tObj tv : Json),
      recordPieces pre source rem skip = .ok (ps, skip2) →
      getItem f typeKey = .ok tObj →
      getItem tObj typeKey = .ok tv →
      (jeqStr tv longName || jeqStr tv intName) = false →
      jeqStr tv stringName = false →
      parseRecordFields t (arrAppend pre (.acons f rest)) source rem skip enc
        = .error (.parsingFailure "Unsupported data type in schema")
  | .anil, f, rest, source, rem, skip, enc, ps, skip2, tObj, tv,
      _hp, ht1, ht2, hti, hts => by
      show parseRecordFields t (.acons f rest) source rem skip enc = _
      simp only [parseRecordFields, bind, Except.bind, ht1, ht2]
      simp only [hti, hts, Bool.false_eq_true, if_false]
  | .acons g pre, f, rest, source, rem, skip, enc, ps, skip2, tObj, tv,
      hp, ht1, ht2, hti, hts => by
      have IH := parseRecordFields_unsupported t pre f rest source rem
      simp only [recordPieces, bind, Except.bind] at hp
      show parseRecordFields t (.acons g (arrAppend pre (.acons f rest)))
        source rem skip enc = _
      simp only [parseRecordFields, bind, Except.bind]
      cases hg1 : getItem g typeKey with
      | error e => rw [hg1] at hp; exact absurd hp (by simp)
      | ok gObj =>
        rw [hg1] at hp
        dsimp only at hp ⊢
        cases hg2 : getItem gObj typeKey with
        | error e => rw [hg2] at hp; exact absurd hp (by simp)
        | ok gv =>
          rw [hg2] at hp
          dsimp only at hp ⊢
          by_cases h1 : (jeqStr gv longName || jeqStr gv intName) = true
          · simp only [h1, if_true] at hp ⊢
            cases hr : read_long (pySliceFrom source skip) (rem - skip) with
            | error e => rw [hr] at hp; exact absurd hp (by simp)
            | ok p =>
              rw [hr] at hp
              dsimp only at hp ⊢
              cases hnm : getItem g nameKey with
              | error e => rw [hnm] at hp; exact absurd hp (by simp)
              | ok nm =>
                rw [hnm] at hp
                dsimp only at hp ⊢
                rw [reencode_long_ok t gv nm p.1 h1]
                dsimp only
                cases hq : recordPieces pre source rem (skip + (p.2 : Int)) with
                | error e => rw [hq] at hp; exact absurd hp (by simp)
                | ok q =>
                  rw [hq] at hp
                  exact IH (skip + (p.2 : Int)) (enc ++ pieceBytes t (nm, gv, .vlong p.1))
                    q.1 q.2 tObj tv (by rw [hq]) ht1 ht2 hti hts
          · rw [Bool.not_eq_true] at h1
            simp only [h1, Bool.false_eq_true, if_false] at hp ⊢
            by_cases h2 : jeqStr gv stringName = true
            · simp only [h2, if_true] at hp ⊢
              cases hr : read_bytes (pySliceFrom source skip) (rem - skip) with
              | error e => rw [hr] at hp; exact absurd hp (by simp)
              | ok p =>
                rw [hr] at hp
                dsimp only at hp ⊢
                cases hnm : getItem g nameKey with
                | error e => rw [hnm] at hp; exact absurd hp (by simp)
                | ok nm =>
                  rw [hnm] at hp
                  dsimp only at hp ⊢
                  rw [reencode_str_ok t gv nm p.1 h1]
                  dsimp only
                  cases hq : recordPieces pre source rem (skip + p.2) with
                  | error e => rw [hq] at hp; exact absurd hp (by simp)
                  | ok q =>
                    rw [hq] at hp
                    exact IH (skip + p.2) (enc ++ pieceBytes t (nm, gv, .vstr p.1))
                      q.1 q.2 tObj tv (by rw [hq]) ht1 ht2 hti hts
            · rw [Bool.not_eq_true] at h2
              simp only [h2, Bool.false_eq_true, if_false] at hp
              exact absurd hp (by simp)

/-- C8 (amended): a block codec of `"deflate"` — or any value other
than `"snappy"` — raises a fatal `ParsingFailure` once the block's
framing is buffered (not an `InsufficientData`); a schema field whose
declared type is not `long`, `int` or `string` raises the fatal
unsupported-type `ParsingFailure` whenever a record decode reaches it
(i.e. the fields before it decode successfully); and a step raising a
`ParsingFailure` makes the driver stop with that fatal error, yielding
no output for the block. -/
theorem C8_unsupported_codec_and_type :
    (∀ (sc : Codec) (t : Transform) (st : PState) (oc bs : Int) (used used2 : Nat),
      read_long st.buffered st.blen = .ok (oc, used) →
      read_long (pySliceFrom st.buffered (used : Int)) (st.blen - (used : Int))
        = .ok (bs, used2) →
      ¬(st.blen < (used : Int) + (used2 : Int) + bs + 16) →
      st.codec ≠ some snappyName →
      ∃ msg, parse_data_block sc t st = .error (.parsingFailure msg)) ∧
    (∀ (t : Transform) (pre : JsonArr) (f : Json) (rest : JsonArr) (source : Bytes)
        (rem skip : Int) (enc : Bytes) (ps : List (Json × Json × AvroVal))
        (skip2 : Int) (tObj tv : Json),
      recordPieces pre source rem skip = .ok (ps, skip2) →
      getItem f typeKey = .ok tObj →
      getItem tObj typeKey = .ok tv →
      (jeqStr tv longName || jeqStr tv intName) = false →
      jeqStr tv stringName = false →
      parseRecordFields t (arrAppend pre (.acons f rest)) source rem skip enc
        = .error (.parsingFailure "Unsupported data type in schema")) ∧
    (∀ (sc : Codec) (t : Transform) (st : PState) (chunks : List Bytes)
        (fuel : Nat) (msg : String),
      parse_next_item sc t st = .error (.parsingFailure msg) →
      runAll sc t (fuel + 1) st chunks = ([], .fatal (.parsingFailure msg))) := by
  refine ⟨?_, ?_, ?_⟩
  · intro sc t st oc bs used used2 h1 h2 h3 hc
    unfold parse_data_block
    rw [h1]
    simp only [bind, Except.bind]
    rw [h2]
    dsimp only
    rw [if_neg h3, if_neg hc]
    by_cases hd : st.codec = some deflateName
    · rw [if_pos hd]
      exact ⟨"Unsupported codec: deflate", rfl⟩
    · rw [if_neg hd]
      exact ⟨"Unknown codec", rfl⟩
  · intro t pre f rest source rem skip enc ps skip2 tObj tv hp ht1 ht2 hti hts
    exact parseRecordFields_unsupported t pre f rest source rem skip enc ps skip2
      tObj tv hp ht1 ht2 hti hts
  · intro sc t st chunks fuel msg h
    exact runAll_fatal_of_parsingFailure sc t st chunks fuel msg h

/-- Witness for C8: the deflate codec on the concrete block, a record
whose second field has type `float` after a decodable `long` field,
and the driver dying with the deflate failure. -/
theorem C8_unsupported_codec_and_type_witness :
    (∃ msg, parse_data_block snappyLit .base { c8State with codec := some deflateName }
      = .error (.parsingFailure msg)) ∧
    (parseRecordFields .base (arrAppend (.acons aField .anil) (.acons floatField .anil))
        [10] 1 0 []
      = .error (.parsingFailure "Unsupported data type in schema")) ∧
    (runAll snappyLit .base 3 { c8State with codec := some deflateName } []
      = ([], .fatal (.parsingFailure "Unsupported codec: deflate"))) := by
  refine ⟨?_, ?_, ?_⟩
  · exact C8_unsupported_codec_and_type.1 snappyLit .base
      { c8State with codec := some deflateName } 0 5 1 1 (by rfl) (by rfl)
      (by decide) (by decide)
  · exact C8_unsupported_codec_and_type.2.1 .base (.acons aField .anil) floatField .anil
      [10] 1 0 [] [((.jstr [97] : Json), (.jstr longName : Json), AvroVal.vlong 5)] 1
      (.jobj (.ocons typeKey (.jstr floatName) .onil)) (.jstr floatName)
      (by rfl) (by rfl) (by rfl) (by rfl) (by rfl)
  · exact C8_unsupported_codec_and_type.2.2 snappyLit .base
      { c8State with codec := some deflateName } [] 2 "Unsupported codec: deflate" (by rfl)

/-! ### Slice arithmetic on canonical streams -/

theorem pyIdx_natCast (len k : ℕ) : pyIdx len (k : Int) = min k len := by
  rw [pyIdx, if_neg (by push_cast; omega)]
  simp

theorem pySliceFrom_left (a b : Bytes) :
    pySliceFrom (a ++ b) ((a.length : ℕ) : Int) = b := by
  rw [pySliceFrom, pyIdx_natCast,
    Nat.min_eq_left (by simp only [List.length_append]; omega), List.drop_left]

theorem pySliceFrom_int (a b : Bytes) (i : Int) (hi : i = (a.length : Int)) :
    pySliceFrom (a ++ b) i = b := by
  subst hi
  exact pySliceFrom_left a b

theorem pySlice_mid (a b c : Bytes) (i j : Int)
    (hi : i = (a.length : Int)) (hj : j = (a.length : Int) + (b.length : Int)) :
    pySlice (a ++ (b ++ c)) i j = b := by
  subst hi
  have hj2 : j = (((a.length + b.length : ℕ)) : Int) := by push_cast; omega
  subst hj2
  rw [pySlice, pyIdx_natCast, pyIdx_natCast,
    Nat.min_eq_left (by simp only [List.length_append]; omega),
    Nat.min_eq_left (by simp only [List.length_append]; omega),
    ← List.append_assoc,
    show a.length + b.length = (a ++ b).length from (List.length_append a b).symm,
    List.take_left, List.drop_left]

theorem pySlice_prefix (a b : Bytes) (j : Int) (hj : j = (a.length : Int)) :
    pySlice (a ++ b) 0 j = a := by
  subst hj
  rw [pySlice, pyIdx_natCast,
    Nat.min_eq_left (by simp only [List.length_append]; omega)]
  have h0 : pyIdx (a ++ b).length 0 = 0 := by simp [pyIdx]
  rw [h0, List.drop_zero, List.take_left]

/-! ### Canonical varints and length-prefixed strings under short
buffers -/

/-- Every byte `_encode_long` emits is a real byte value. -/
theorem encodeLoop_bytes (m : ℕ) : ∀ x ∈ encodeLoop m, x < 256 := by
  induction m using Nat.strong_induction_on with
  | _ m IH =>
    by_cases hm : m < 128
    · rw [encodeLoop_small hm]
      intro x hx
      simp only [List.mem_singleton] at hx
      omega
    · rw [encodeLoop_big hm]
      intro x hx
      simp only [List.mem_cons] at hx
      rcases hx with h | h
      · have := Nat.mod_lt m (show 0 < 128 by omega)
        omega
      · exact IH (m / 128) (Nat.div_lt_self (by omega) (by omega)) x h

/-- All bytes of a canonical varint except the last carry the
continuation bit. -/
theorem encodeLoop_cont (m : ℕ) :
    ∀ i, i + 1 < (encodeLoop m).length → 128 ≤ (encodeLoop m).getD i 0 := by
  induction m using Nat.strong_induction_on with
  | _ m IH =>
    by_cases hm : m < 128
    · rw [encodeLoop_small hm]
      intro i hi
      simp at hi
    · rw [encodeLoop_big hm]
      intro i hi
      match i with
      | 0 =>
          simp only [List.getD_cons_zero]
          omega
      | i + 1 =>
          simp only [List.length_cons] at hi
          have := IH (m / 128) (Nat.div_lt_self (by omega) (by omega)) i (by omega)
          simpa using this

/-- A strict prefix of a canonical varint, presented as the whole
buffer, raises `AvroInsufficientDataException` in `_read_long`. -/
theorem read_long_encodeLoop_prefix (m : ℕ) (p q : Bytes)
    (hpq : encodeLoop m = p ++ q) (hq : q ≠ []) :
    read_long p ((p.length : ℕ) : Int) = .error .insufficientData := by
  have hbytes : ∀ x ∈ p, x < 256 := by
    intro x hx
    exact encodeLoop_bytes m x (by rw [hpq]; exact List.mem_append_left q hx)
  rw [read_long_insufficient_iff p hbytes]
  intro i hi
  have hlen : p.length < (encodeLoop m).length := by
    rw [hpq, List.length_append]
    cases q with
    | nil => exact absurd rfl hq
    | cons c cs => simp only [List.length_cons]; omega
  have hgd : p.getD i 0 = (encodeLoop m).getD i 0 := by
    rw [hpq]
    exact (List.getD_append p q 0 i hi).symm
  rw [hgd]
  exact encodeLoop_cont m i (by omega)

/-- The `encode_long` form of the previous lemma. -/
theorem read_long_encode_long_prefix (v : ℤ) (p q : Bytes)
    (hpq : encode_long v = p ++ q) (hq : q ≠ []) :
    read_long p ((p.length : ℕ) : Int) = .error .insufficientData := by
  rw [encode_long] at hpq
  exact read_long_encodeLoop_prefix (zigzag v).toNat p q hpq hq

/-- Reading a canonically length-prefixed string with any tail behind
it returns exactly the string and consumes exactly its serialized
length. -/
theorem read_bytes_encStr (s tail : Bytes) (hs : (s.length : Int) < 2 ^ 63) :
    read_bytes (encStr s ++ tail) (((encStr s ++ tail).length : ℕ) : Int)
      = .ok (s, (((encStr s).length : ℕ) : Int)) := by
  have hrl : read_long (encStr s ++ tail) (((encStr s ++ tail).length : ℕ) : Int)
      = .ok ((s.length : Int), (encode_long (s.length : Int)).length) := by
    rw [encStr, List.append_assoc]
    exact read_long_encode_long (s.length : Int) (by omega) hs (s ++ tail) _
      (by push_cast [List.length_append]; omega)
  unfold read_bytes
  rw [hrl]
  simp only [bind, Except.bind]
  rw [if_neg (by push_cast [List.length_append, encStr]; omega)]
  have hsl : pySlice (encStr s ++ tail) ((encode_long (s.length : Int)).length : Int)
      (((encode_long (s.length : Int)).length : Int) + (s.length : Int)) = s := by
    rw [encStr, List.append_assoc]
    exact pySlice_mid (encode_long (s.length : Int)) s tail _ _ rfl rfl
  rw [hsl]
  have hlen : ((s.length : Int) + ((encode_long (s.length : Int)).length : Int))
      = (((encStr s).length : ℕ) : Int) := by
    rw [encStr]
    push_cast [List.length_append]
    omega
  rw [hlen]

/-- A strict prefix of a canonically length-prefixed string, presented
as the whole buffer, raises `AvroInsufficientDataException` in
`_read_bytes`. -/
theorem read_bytes_encStr_prefix (s : Bytes) (hs : (s.length : Int) < 2 ^ 63)
    (p q : Bytes) (hpq : encStr s = p ++ q) (hq : q ≠ []) :
    read_bytes p ((p.length : ℕ) : Int) = .error .insufficientData := by
  have hqlen : 0 < q.length := by
    cases q with
    | nil => exact absurd rfl hq
    | cons c cs => simp
  by_cases hlt : p.length < (encode_long (s.length : Int)).length
  · have hptake : p = (encode_long (s.length : Int)).take p.length := by
      have h1 : (p ++ q).take p.length = p := List.take_left p q
      rw [← hpq, encStr, List.take_append_of_le_length (by omega)] at h1
      exact h1.symm
    have hsplit : encode_long (s.length : Int)
        = p ++ (encode_long (s.length : Int)).drop p.length := by
      conv_lhs => rw [← List.take_append_drop p.length (encode_long (s.length : Int))]
      rw [← hptake]
    have hdrop : (encode_long (s.length : Int)).drop p.length ≠ [] := by
      intro hnil
      have := congrArg List.length hnil
      simp only [List.length_drop, List.length_nil] at this
      omega
    have hrl := read_long_encode_long_prefix (s.length : Int) p _ hsplit hdrop
    unfold read_bytes
    rw [hrl]
    rfl
  · have hple : (encode_long (s.length : Int)).length ≤ p.length := by omega
    have hptotal : p.length < (encStr s).length := by
      rw [hpq, List.length_append]
      omega
    have hpsplit : p = encode_long (s.length : Int) ++ p.drop (encode_long (s.length : Int)).length := by
      have h1 : encode_long (s.length : Int) = p.take (encode_long (s.length : Int)).length := by
        have h2 : (p ++ q).take (encode_long (s.length : Int)).length
            = p.take (encode_long (s.length : Int)).length :=
          List.take_append_of_le_length hple
        rw [← hpq, encStr, List.take_append_of_le_length (by omega), List.take_length] at h2
        exact h2
      conv_lhs => rw [← List.take_append_drop (encode_long (s.length : Int)).length p]
      rw [← h1]
    have hrl : read_long p ((p.length : ℕ) : Int)
        = .ok ((s.length : Int), (encode_long (s.length : Int)).length) := by
      conv_lhs => rw [hpsplit]
      exact read_long_encode_long (s.length : Int) (by omega) hs _ _
        (by rw [hpsplit]; push_cast [List.length_append]; omega)
    unfold read_bytes
    rw [hrl]
    simp only [bind, Except.bind]
    rw [if_pos ?cond]
    case cond =>
      have hlp : p.length = (encode_long (s.length : Int)).length
          + (p.drop (encode_long (s.length : Int)).length).length := by
        conv_lhs => rw [hpsplit]
        rw [List.length_append]
      rw [encStr, List.length_append] at hptotal
      push_cast
      omega

/-! ### Canonical record decoding -/

theorem recordBytes_cons (v : AvroVal) (vs : List AvroVal) :
    recordBytes (v :: vs) = baseFieldBytes v ++ recordBytes vs := by
  rw [recordBytes, List.map_cons, List.flatten_cons, recordBytes]

theorem blockContent_cons (vals : List AvroVal) (recs : List (List AvroVal)) :
    blockContent (vals :: recs) = recordBytes vals ++ blockContent recs := by
  rw [blockContent, List.map_cons, List.flatten_cons, blockContent]

/-- Decoding a record whose bytes are the canonical encoding of
well-typed values, at offset `pre.length` into the source, consumes
exactly those bytes, and the base transform re-emits them verbatim. -/
theorem parseRecordFields_canonical :
    ∀ (xs : JsonArr) (vals : List AvroVal), fieldsTypedB xs vals = true →
    ∀ (pre rest enc : Bytes),
      parseRecordFields .base xs (pre ++ (recordBytes vals ++ rest))
          (((pre ++ (recordBytes vals ++ rest)).length : ℕ) : Int)
          ((pre.length : ℕ) : Int) enc
        = .ok (enc ++ recordBytes vals,
            (((pre.length + (recordBytes vals).length : ℕ)) : Int))
  | .anil, [], _ht, pre, rest, enc => by
      simp only [recordBytes, List.map_nil, List.flatten_nil, List.nil_append,
        List.append_nil, List.length_nil, Nat.add_zero]
      rfl
  | .anil, v :: vs, ht, pre, rest, enc => by
      simp [fieldsTypedB] at ht
  | .acons f xs, [], ht, pre, rest, enc => by
      simp [fieldsTypedB] at ht
  | .acons f xs, v :: vs, ht, pre, rest, enc => by
      simp only [fieldsTypedB, Bool.and_eq_true] at ht
      obtain ⟨htf, htv⟩ := ht
      unfold fieldTypedB at htf
      cases ht1 : getItem f typeKey with
      | error e => rw [ht1] at htf; simp at htf
      | ok tObj =>
        rw [ht1] at htf
        cases htn : getItem f nameKey with
        | error e => rw [htn] at htf; simp at htf
        | ok nmJ =>
          rw [htn] at htf
          dsimp only at htf
          cases ht2 : getItem tObj typeKey with
          | error e => rw [ht2] at htf; simp at htf
          | ok tv =>
            rw [ht2] at htf
            dsimp only at htf
            simp only [parseRecordFields, bind, Except.bind, ht1, ht2]
            by_cases hlong : (jeqStr tv longName || jeqStr tv intName) = true
            · rw [if_pos hlong] at htf
              rw [if_pos hlong]
              cases v with
              | vstr str => simp at htf
              | vlong x =>
                simp only [Bool.and_eq_true, decide_eq_true_eq] at htf
                obtain ⟨hx1, hx2⟩ := htf
                have hread : read_long
                    (pySliceFrom (pre ++ (recordBytes (AvroVal.vlong x :: vs) ++ rest))
                      ((pre.length : ℕ) : Int))
                    ((((pre ++ (recordBytes (AvroVal.vlong x :: vs) ++ rest)).length : ℕ) : Int)
                      - ((pre.length : ℕ) : Int))
                    = .ok (x, (encode_long x).length) := by
                  rw [pySliceFrom_int pre _ _ rfl, recordBytes_cons]
                  show read_long ((encode_long x ++ recordBytes vs) ++ rest) _ = _
                  rw [List.append_assoc]
                  refine read_long_encode_long x hx1 hx2 _ _ ?_
                  push_cast [List.length_append, recordBytes_cons, baseFieldBytes]
                  omega
                rw [hread]
                dsimp only
                rw [htn]
                dsimp only
                rw [reencode_long_ok .base tv nmJ x hlong]
                dsimp only [pieceBytes, baseFieldBytes]
                have hsrc : pre ++ (recordBytes (AvroVal.vlong x :: vs) ++ rest)
                    = (pre ++ encode_long x) ++ (recordBytes vs ++ rest) := by
                  rw [recordBytes_cons]
                  dsimp only [baseFieldBytes]
                  simp only [List.append_assoc]
                have hskip : ((pre.length : ℕ) : Int) + ((encode_long x).length : Int)
                    = (((pre ++ encode_long x).length : ℕ) : Int) := by
                  push_cast [List.length_append]
                  omega
                rw [hsrc, hskip,
                  parseRecordFields_canonical xs vs htv (pre ++ encode_long x) rest
                    (enc ++ encode_long x)]
                rw [recordBytes_cons]
                dsimp only [baseFieldBytes]
                simp only [Except.ok.injEq, Prod.mk.injEq, List.append_assoc,
                  List.length_append]
                constructor
                · trivial
                · push_cast
                  omega
            · rw [if_neg hlong] at htf
              rw [if_neg hlong]
              by_cases hstr : jeqStr tv stringName = true
              · rw [if_pos hstr] at htf
                rw [if_pos hstr]
                cases v with
                | vlong x => simp at htf
                | vstr str =>
                  simp only [decide_eq_true_eq] at htf
                  have hread : read_bytes
                      (pySliceFrom (pre ++ (recordBytes (AvroVal.vstr str :: vs) ++ rest))
                        ((pre.length : ℕ) : Int))
                      ((((pre ++ (recordBytes (AvroVal.vstr str :: vs) ++ rest)).length : ℕ) : Int)
                        - ((pre.length : ℕ) : Int))
                      = .ok (str, (((encStr str).length : ℕ) : Int)) := by
                    rw [pySliceFrom_int pre _ _ rfl]
                    have hsh : recordBytes (AvroVal.vstr str :: vs) ++ rest
                        = encStr str ++ (recordBytes vs ++ rest) := by
                      rw [recordBytes_cons, List.append_assoc]
                      rfl
                    rw [hsh]
                    have hblen : (((pre ++ (encStr str ++ (recordBytes vs ++ rest))).length : ℕ) : Int)
                        - ((pre.length : ℕ) : Int)
                        = (((encStr str ++ (recordBytes vs ++ rest)).length : ℕ) : Int) := by
                      push_cast [List.length_append]
                      omega
                    rw [hblen]
                    exact read_bytes_encStr str (recordBytes vs ++ rest) htf
                  rw [hread]
                  dsimp only
                  rw [htn]
                  dsimp only
                  rw [reencode_str_ok .base tv nmJ str (by rw [Bool.not_eq_true] at hlong; exact hlong)]
                  dsimp only [pieceBytes, baseFieldBytes]
                  have hsrc : pre ++ (recordBytes (AvroVal.vstr str :: vs) ++ rest)
                      = (pre ++ encStr str) ++ (recordBytes vs ++ rest) := by
                    rw [recordBytes_cons]
                    show pre ++ ((encStr str ++ recordBytes vs) ++ rest) = _
                    simp only [encStr, List.append_assoc]
                  have hskip : ((pre.length : ℕ) : Int) + (((encStr str).length : ℕ) : Int)
                      = (((pre ++ encStr str).length : ℕ) : Int) := by
                    push_cast [List.length_append]
                    omega
                  rw [hsrc, hskip,
                    parseRecordFields_canonical xs vs htv (pre ++ encStr str) rest
                      (enc ++ (encode_long ((str.length : ℕ) : Int) ++ str))]
                  rw [recordBytes_cons]
                  simp only [baseFieldBytes, encStr, Except.ok.injEq, Prod.mk.injEq,
                    List.append_assoc, List.length_append]
                  constructor
                  · trivial
                  · push_cast
                    omega
              · rw [if_neg hstr] at htf
                simp at htf

/-- The record loop on a canonical block content decodes all records,
consumes exactly the content, and re-emits it verbatim. -/
theorem recordsLoop_canonical (schema : Json) (xs : JsonArr)
    (hx : getItem schema fieldsKey = .ok (.jarr xs)) :
    ∀ (recs : List (List AvroVal)), (∀ vals ∈ recs, fieldsTypedB xs vals = true) →
    ∀ (pre acc : Bytes),
      recordsLoop .base schema recs.length (pre ++ blockContent recs)
          ((pre.length : ℕ) : Int) acc
        = .ok (acc ++ blockContent recs,
            (((pre.length + (blockContent recs).length : ℕ)) : Int))
  | [], _hts, pre, acc => by
      simp only [blockContent, List.map_nil, List.flatten_nil, List.append_nil,
        List.length_nil, Nat.add_zero]
      rfl
  | vals :: recs, hts, pre, acc => by
      simp only [List.length_cons, recordsLoop, bind, Except.bind]
      have hsl : pySliceFrom (pre ++ blockContent (vals :: recs)) ((pre.length : ℕ) : Int)
          = recordBytes vals ++ blockContent recs := by
        rw [pySliceFrom_int pre _ _ rfl, blockContent_cons]
      have hrec := parseRecordFields_canonical xs vals (hts vals (by simp)) []
        (blockContent recs) []
      simp only [List.nil_append, Nat.cast_zero, List.length_nil, Nat.zero_add] at hrec
      have hsingle : parse_single_record .base schema
          (pySliceFrom (pre ++ blockContent (vals :: recs)) ((pre.length : ℕ) : Int))
          = .ok (recordBytes vals, (((recordBytes vals).length : ℕ) : Int)) := by
        rw [hsl]
        unfold parse_single_record
        rw [hx]
        simp only [bind, Except.bind]
        exact hrec
      rw [hsingle]
      dsimp only
      have hskip : ((pre.length : ℕ) : Int) + (((recordBytes vals).length : ℕ) : Int)
          = (((pre ++ recordBytes vals).length : ℕ) : Int) := by
        push_cast [List.length_append]
        omega
      have hsrc : pre ++ blockContent (vals :: recs)
          = (pre ++ recordBytes vals) ++ blockContent recs := by
        rw [blockContent_cons, List.append_assoc]
      rw [hskip, hsrc,
        recordsLoop_canonical schema xs hx recs (fun w hw => hts w (by simp [hw]))
          (pre ++ recordBytes vals) (acc ++ recordBytes vals)]
      rw [blockContent_cons]
      simp only [Except.ok.injEq, Prod.mk.injEq, List.append_assoc, List.length_append]
      constructor
      · trivial
      · push_cast
        omega

/-! ### Complete-segment behaviour of the parse phases -/

theorem pySliceFrom_extract (s a b : Bytes) (i : Int)
    (hs : s = a ++ b) (hi : i = (a.length : Int)) : pySliceFrom s i = b := by
  subst hs
  exact pySliceFrom_int a b i hi

theorem pySlice_extract (s a b c : Bytes) (i j : Int)
    (hs : s = a ++ (b ++ c)) (hi : i = (a.length : Int))
    (hj : j = (a.length : Int) + (b.length : Int)) :
    pySlice s i j = b := by
  subst hs
  exact pySlice_mid a b c i j hi hj

theorem pySlice_prefix_extract (s a b : Bytes) (j : Int)
    (hs : s = a ++ b) (hj : j = (a.length : Int)) : pySlice s 0 j = a := by
  subst hs
  exact pySlice_prefix a b j hj

theorem packUInt32LE_length (x : ℕ) : (packUInt32LE x).length = 4 := rfl

/-- `_parse_header_magic` on a buffer starting with the magic emits the
magic and leaves the rest buffered, in state `fileMetadata`. -/
theorem parse_header_magic_complete (st : PState) (rest : Bytes)
    (hbuf : st.buffered = magicBytes ++ rest)
    (hblen : st.blen = (st.buffered.length : Int)) :
    parse_header_magic st
      = .ok (magicBytes, mkSt { st with state := .fileMetadata } rest) := by
  rw [hbuf] at hblen
  have hlen4 : st.blen - (0 + 4) = ((rest.length : ℕ) : Int) := by
    rw [hblen]
    simp only [List.length_append, magicBytes, List.length_cons, List.length_nil]
    push_cast
    omega
  unfold parse_header_magic
  rw [if_neg (by
    rw [hblen]
    simp only [List.length_append, magicBytes, List.length_cons, List.length_nil]
    push_cast
    omega)]
  rw [pySlice_prefix_extract st.buffered magicBytes rest 4 hbuf (by decide)]
  rw [if_neg (by simp)]
  rw [pySliceFrom_extract st.buffered magicBytes rest 4 hbuf (by decide)]
  rw [hlen4]
  rfl

/-- `_parse_sync_marker` with no marker yet captured, on a buffer
holding 16 marker bytes: captures and emits them. -/
theorem parse_sync_marker_first (st : PState) (M rest : Bytes) (hM : M.length = 16)
    (hsm : st.syncmarker = none)
    (hbuf : st.buffered = M ++ rest)
    (hblen : st.blen = (st.buffered.length : Int)) :
    parse_sync_marker st
      = .ok (M, mkSt { st with state := .startDatablock, syncmarker := some M } rest) := by
  rw [hbuf] at hblen
  have hlen16 : st.blen - 16 = ((rest.length : ℕ) : Int) := by
    rw [hblen]
    push_cast [List.length_append, hM]
    omega
  unfold parse_sync_marker
  rw [if_neg (by rw [hblen]; push_cast [List.length_append, hM]; omega)]
  rw [hsm]
  dsimp only
  rw [pySlice_prefix_extract st.buffered M rest 16 hbuf (by rw [hM]; rfl)]
  rw [pySliceFrom_extract st.buffered M rest 16 hbuf (by rw [hM]; rfl)]
  rw [hlen16]
  rfl

/-- `_parse_sync_marker` with the marker already captured, on a buffer
starting with that marker: emits it again. -/
theorem parse_sync_marker_again (st : PState) (M rest : Bytes) (hM : M.length = 16)
    (hsm : st.syncmarker = some M)
    (hbuf : st.buffered = M ++ rest)
    (hblen : st.blen = (st.buffered.length : Int)) :
    parse_sync_marker st
      = .ok (M, mkSt { st with state := .startDatablock } rest) := by
  rw [hbuf] at hblen
  have hlen16 : st.blen - 16 = ((rest.length : ℕ) : Int) := by
    rw [hblen]
    push_cast [List.length_append, hM]
    omega
  unfold parse_sync_marker
  rw [if_neg (by rw [hblen]; push_cast [List.length_append, hM]; omega)]
  rw [hsm]
  dsimp only
  rw [pySlice_prefix_extract st.buffered M rest 16 hbuf (by rw [hM]; rfl)]
  rw [if_neg (by simp)]
  rw [pySliceFrom_extract st.buffered M rest 16 hbuf (by rw [hM]; rfl)]
  rw [hlen16]
  rfl

/-- `_parse_data_block` on a buffer starting with a canonical snappy
block whose records are well-typed against the committed schema: the
block bytes are emitted verbatim (count, length field, compressed
payload, CRC-32, sync marker) and consumed exactly. -/
theorem parse_data_block_canonical (sc : Codec) (st : PState) (M rest : Bytes)
    (xs : JsonArr) (recs : List (List AvroVal))
    (hM : M.length = 16) (hsm : st.syncmarker = some M)
    (hcodec : st.codec = some snappyName)
    (hx : getItem st.schema fieldsKey = .ok (.jarr xs))
    (hts : ∀ vals ∈ recs, fieldsTypedB xs vals = true)
    (hn : ((recs.length : ℕ) : Int) < 2 ^ 63)
    (hc : ((sc.compress (blockContent recs)).length : Int) + 4 < 2 ^ 63)
    (hdec : sc.decompress (sc.compress (blockContent recs)) = some (blockContent recs))
    (hbuf : st.buffered = blockBytes sc M recs.length (blockContent recs) ++ rest)
    (hblen : st.blen = (st.buffered.length : Int)) :
    parse_data_block sc .base st
      = .ok (blockBytes sc M recs.length (blockContent recs),
          mkSt { st with state := .startDatablock } rest) := by
  have hbig : st.buffered
      = encode_long ((recs.length : ℕ) : Int)
        ++ (encode_long (((sc.compress (blockContent recs)).length : Int) + 4)
          ++ (sc.compress (blockContent recs)
            ++ (packUInt32LE (crc32 (blockContent recs)) ++ (M ++ rest)))) := by
    rw [hbuf, blockBytes]
    simp only [List.append_assoc]
  rw [hbig] at hblen
  unfold parse_data_block
  simp only [bind, Except.bind]
  have hrl1 : read_long st.buffered st.blen
      = .ok (((recs.length : ℕ) : Int),
          (encode_long ((recs.length : ℕ) : Int)).length) := by
    rw [hblen, hbig]
    exact read_long_encode_long _ (by omega) hn _ _
      (by push_cast [List.length_append]; omega)
  rw [hrl1]
  dsimp only
  have hsaved : pySlice st.buffered 0
      (((encode_long ((recs.length : ℕ) : Int)).length : ℕ) : Int)
      = encode_long ((recs.length : ℕ) : Int) :=
    pySlice_prefix_extract st.buffered _ _ _ hbig rfl
  rw [hsaved]
  have hps1 : pySliceFrom st.buffered
      (((encode_long ((recs.length : ℕ) : Int)).length : ℕ) : Int)
      = encode_long (((sc.compress (blockContent recs)).length : Int) + 4)
        ++ (sc.compress (blockContent recs)
          ++ (packUInt32LE (crc32 (blockContent recs)) ++ (M ++ rest))) :=
    pySliceFrom_extract st.buffered _ _ _ hbig rfl
  rw [hps1]
  have hrl2 : read_long
      (encode_long (((sc.compress (blockContent recs)).length : Int) + 4)
        ++ (sc.compress (blockContent recs)
          ++ (packUInt32LE (crc32 (blockContent recs)) ++ (M ++ rest))))
      (st.blen - (((encode_long ((recs.length : ℕ) : Int)).length : ℕ) : Int))
      = .ok ((((sc.compress (blockContent recs)).length : Int) + 4),
          (encode_long (((sc.compress (blockContent recs)).length : Int) + 4)).length) := by
    refine read_long_encode_long _ (by omega) hc _ _ ?_
    rw [hblen]
    push_cast [List.length_append]
    omega
  rw [hrl2]
  dsimp only
  rw [if_neg (by
    rw [hblen]
    push_cast [List.length_append, packUInt32LE_length, hM]
    omega)]
  rw [if_pos hcodec]
  have hps2 : pySlice st.buffered
      ((((encode_long ((recs.length : ℕ) : Int)).length : ℕ) : Int)
        + (((encode_long (((sc.compress (blockContent recs)).length : Int) + 4)).length : ℕ) : Int))
      ((((encode_long ((recs.length : ℕ) : Int)).length : ℕ) : Int)
        + (((encode_long (((sc.compress (blockContent recs)).length : Int) + 4)).length : ℕ) : Int)
        + (((sc.compress (blockContent recs)).length : Int) + 4) - 4)
      = sc.compress (blockContent recs) := by
    refine pySlice_extract st.buffered
      (encode_long ((recs.length : ℕ) : Int)
        ++ encode_long (((sc.compress (blockContent recs)).length : Int) + 4))
      (sc.compress (blockContent recs))
      (packUInt32LE (crc32 (blockContent recs)) ++ (M ++ rest)) _ _ ?_ ?_ ?_
    · rw [hbig]
      simp only [List.append_assoc]
    · push_cast [List.length_append]
      omega
    · push_cast [List.length_append]
      omega
  rw [hps2, hdec]
  dsimp only
  have hloop := recordsLoop_canonical st.schema xs hx recs hts [] []
  simp only [List.nil_append, List.length_nil, Nat.cast_zero, Nat.zero_add] at hloop
  rw [Int.toNat_natCast, hloop]
  dsimp only
  rw [if_pos hcodec]
  have hps3 : pySliceFrom st.buffered
      ((((encode_long ((recs.length : ℕ) : Int)).length : ℕ) : Int)
        + (((encode_long (((sc.compress (blockContent recs)).length : Int) + 4)).length : ℕ) : Int)
        + (((sc.compress (blockContent recs)).length : Int) + 4))
      = M ++ rest := by
    refine pySliceFrom_extract st.buffered
      (((encode_long ((recs.length : ℕ) : Int)
        ++ encode_long (((sc.compress (blockContent recs)).length : Int) + 4))
        ++ sc.compress (blockContent recs))
        ++ packUInt32LE (crc32 (blockContent recs)))
      (M ++ rest) _ ?_ ?_
    · rw [hbig]
      simp only [List.append_assoc]
    · push_cast [List.length_append, packUInt32LE_length]
      omega
  have hsync := parse_sync_marker_again
    { st with
        buffered := pySliceFrom st.buffered
          ((((encode_long ((recs.length : ℕ) : Int)).length : ℕ) : Int)
            + (((encode_long (((sc.compress (blockContent recs)).length : Int) + 4)).length : ℕ) : Int)
            + (((sc.compress (blockContent recs)).length : Int) + 4))
        blen := st.blen
          - ((((encode_long ((recs.length : ℕ) : Int)).length : ℕ) : Int)
            + (((encode_long (((sc.compress (blockContent recs)).length : Int) + 4)).length : ℕ) : Int)
            + (((sc.compress (blockContent recs)).length : Int) + 4)) }
    M rest hM hsm hps3
    (by
      show st.blen - _ = ((pySliceFrom st.buffered _).length : Int)
      rw [hps3, hblen]
      push_cast [List.length_append, packUInt32LE_length, hM]
      omega)
  rw [hsync]
  dsimp only
  rw [blockBytes]
  rfl

/-- One canonical metadata entry at offset `pre.length`: the entry
bytes are appended to `saved` verbatim, `avro.codec` updates the codec,
`avro.schema` updates the stored schema to the parsed object. -/
theorem metaEntry_canonical (t : Transform) (buffered : Bytes) (blen : Int)
    (pre rest : Bytes) (kv : Bytes × Bytes) (hok : entryOk t kv)
    (hbuf : buffered = pre ++ (metaEntryBytes kv ++ rest))
    (hblen : blen = (buffered.length : Int))
    (saved : Bytes) (codec : Option Bytes) (schema : Json) :
    metaEntry t buffered blen ((pre.length : ℕ) : Int) saved codec schema
      = .ok ((((pre ++ metaEntryBytes kv).length : ℕ) : Int),
          saved ++ metaEntryBytes kv,
          (if kv.1 = avroCodecKey then some kv.2 else codec),
          (if kv.1 = avroSchemaKey then (loads kv.2).getD schema else schema)) := by
  obtain ⟨hk63, hv63, hcod, hsch⟩ := hok
  have hshape : buffered = pre ++ (encStr kv.1 ++ (encStr kv.2 ++ rest)) := by
    rw [hbuf]
    unfold metaEntryBytes
    rw [List.append_assoc]
  have hshape2 : buffered = (pre ++ encStr kv.1) ++ (encStr kv.2 ++ rest) := by
    rw [hshape, List.append_assoc]
  unfold metaEntry
  simp only [bind, Except.bind]
  have hr1 : read_bytes (pySliceFrom buffered ((pre.length : ℕ) : Int))
      (blen - ((pre.length : ℕ) : Int))
      = .ok (kv.1, (((encStr kv.1).length : ℕ) : Int)) := by
    rw [pySliceFrom_extract buffered pre (encStr kv.1 ++ (encStr kv.2 ++ rest)) _ hshape rfl]
    have hb2 : blen - ((pre.length : ℕ) : Int)
        = (((encStr kv.1 ++ (encStr kv.2 ++ rest)).length : ℕ) : Int) := by
      rw [hblen, hshape]
      push_cast [List.length_append]
      omega
    rw [hb2]
    exact read_bytes_encStr kv.1 (encStr kv.2 ++ rest) hk63
  rw [hr1]
  dsimp only
  have hsl1 : pySlice buffered ((pre.length : ℕ) : Int)
      (((pre.length : ℕ) : Int) + (((encStr kv.1).length : ℕ) : Int))
      = encStr kv.1 :=
    pySlice_extract buffered pre (encStr kv.1) (encStr kv.2 ++ rest) _ _ hshape rfl rfl
  rw [hsl1]
  have hr2 : read_bytes
      (pySliceFrom buffered
        (((pre.length : ℕ) : Int) + (((encStr kv.1).length : ℕ) : Int)))
      (blen - (((pre.length : ℕ) : Int) + (((encStr kv.1).length : ℕ) : Int)))
      = .ok (kv.2, (((encStr kv.2).length : ℕ) : Int)) := by
    rw [pySliceFrom_extract buffered (pre ++ encStr kv.1) (encStr kv.2 ++ rest) _ hshape2
      (by push_cast [List.length_append]; omega)]
    have hb2 : blen - (((pre.length : ℕ) : Int) + (((encStr kv.1).length : ℕ) : Int))
        = (((encStr kv.2 ++ rest).length : ℕ) : Int) := by
      rw [hblen, hshape2]
      push_cast [List.length_append]
      omega
    rw [hb2]
    exact read_bytes_encStr kv.2 rest hv63
  have hsl2 : pySlice buffered
      (((pre.length : ℕ) : Int) + (((encStr kv.1).length : ℕ) : Int))
      ((((pre.length : ℕ) : Int) + (((encStr kv.1).length : ℕ) : Int))
        + (((encStr kv.2).length : ℕ) : Int))
      = encStr kv.2 :=
    pySlice_extract buffered (pre ++ encStr kv.1) (encStr kv.2) rest _ _
      hshape2 (by push_cast [List.length_append]; omega)
      (by push_cast [List.length_append]; omega)
  have hlenfin : (((pre.length : ℕ) : Int) + (((encStr kv.1).length : ℕ) : Int))
      + (((encStr kv.2).length : ℕ) : Int)
      = (((pre ++ metaEntryBytes kv).length : ℕ) : Int) := by
    unfold metaEntryBytes
    push_cast [List.length_append]
    omega
  have hsaved : (saved ++ encStr kv.1) ++ encStr kv.2 = saved ++ metaEntryBytes kv := by
    unfold metaEntryBytes
    rw [List.append_assoc]
  by_cases hkc : kv.1 = avroCodecKey
  · rw [if_pos hkc]
    unfold read_avro_codec
    simp only [bind, Except.bind]
    rw [hr2]
    dsimp only
    rw [hsl2, hlenfin, hsaved,
      if_pos hkc, if_neg (by rw [hkc]; decide)]
  · rw [if_neg hkc, if_neg hkc]
    by_cases hks : kv.1 = avroSchemaKey
    · rw [if_pos hks, if_pos hks]
      obtain ⟨j, j2, hload, hdict, hfilt, hdump⟩ := hsch hks
      unfold read_avro_schema
      simp only [bind, Except.bind]
      rw [hr2]
      dsimp only
      rw [hload]
      dsimp only
      rw [hdict]
      dsimp only
      rw [hfilt]
      dsimp only
      rw [hdump, hlenfin]
      have hsaved2 : ((saved ++ encStr kv.1)
            ++ encode_long ((kv.2.length : ℕ) : Int)) ++ kv.2
          = saved ++ metaEntryBytes kv := by
        unfold metaEntryBytes encStr
        simp only [List.append_assoc]
      rw [hsaved2]
      rfl
    · rw [if_neg hks, if_neg hks]
      rw [hr2]
      dsimp only
      rw [hsl2, hlenfin, hsaved]

theorem codecAfter_cons (c : Option Bytes) (k v : Bytes) (es : List (Bytes × Bytes)) :
    codecAfter c ((k, v) :: es)
      = codecAfter (if k = avroCodecKey then some v else c) es := rfl

theorem schemaAfter_cons (sch : Json) (k v : Bytes) (es : List (Bytes × Bytes)) :
    schemaAfter sch ((k, v) :: es)
      = schemaAfter (if k = avroSchemaKey then (loads v).getD sch else sch) es := rfl

/-- The entry loop over canonical entries: all entry bytes are saved
verbatim and the codec/schema attributes evolve by `codecAfter` and
`schemaAfter`. -/
theorem metaEntries_canonical (t : Transform) (buffered : Bytes) (blen : Int) :
    ∀ (entries : List (Bytes × Bytes)), (∀ e ∈ entries, entryOk t e) →
    ∀ (pre rest saved : Bytes) (codec : Option Bytes) (schema : Json),
      buffered = pre ++ ((entries.map metaEntryBytes).flatten ++ rest) →
      blen = (buffered.length : Int) →
      metaEntries t buffered blen entries.length
          (((pre.length : ℕ) : Int), saved, codec, schema)
        = .ok ((((pre ++ (entries.map metaEntryBytes).flatten).length : ℕ) : Int),
            saved ++ (entries.map metaEntryBytes).flatten,
            codecAfter codec entries, schemaAfter schema entries)
  | [], _hok, pre, rest, saved, codec, schema, hbuf, hblen => by
      simp only [List.map_nil, List.flatten_nil, List.append_nil, List.length_nil]
      rfl
  | kv :: es, hok, pre, rest, saved, codec, schema, hbuf, hblen => by
      obtain ⟨k, v⟩ := kv
      simp only [List.length_cons, metaEntries, bind, Except.bind]
      have hshape : buffered
          = pre ++ (metaEntryBytes (k, v) ++ ((es.map metaEntryBytes).flatten ++ rest)) := by
        rw [hbuf]
        simp only [List.map_cons, List.flatten_cons, List.append_assoc]
      rw [metaEntry_canonical t buffered blen pre ((es.map metaEntryBytes).flatten ++ rest)
        (k, v) (hok (k, v) (by simp)) hshape hblen saved codec schema]
      dsimp only
      have hshape2 : buffered
          = (pre ++ metaEntryBytes (k, v)) ++ ((es.map metaEntryBytes).flatten ++ rest) := by
        rw [hshape, List.append_assoc]
      rw [metaEntries_canonical t buffered blen es (fun e he => hok e (by simp [he]))
        (pre ++ metaEntryBytes (k, v)) rest (saved ++ metaEntryBytes (k, v)) _ _ hshape2 hblen]
      rw [codecAfter_cons, schemaAfter_cons]
      simp only [List.map_cons, List.flatten_cons]
      rw [List.append_assoc pre (metaEntryBytes (k, v)) ((es.map metaEntryBytes).flatten),
        List.append_assoc saved (metaEntryBytes (k, v)) ((es.map metaEntryBytes).flatten)]

/-- The `while block_count != 0` loop on one canonical group followed
by the zero terminator: saves the group and terminator bytes and
returns the final attributes. -/
theorem metaLoop_canonical (t : Transform) (buffered : Bytes) (blen : Int)
    (entries : List (Bytes × Bytes)) (rest saved : Bytes)
    (codec : Option Bytes) (schema : Json) (f : Nat)
    (hok : ∀ e ∈ entries, entryOk t e)
    (hne : entries.length ≠ 0)
    (hbuf : buffered = encode_long ((entries.length : ℕ) : Int)
      ++ ((entries.map metaEntryBytes).flatten ++ (encode_long 0 ++ rest)))
    (hblen : blen = (buffered.length : Int)) :
    metaLoop t buffered blen (f + 2) ((entries.length : ℕ) : Int)
        ((((encode_long ((entries.length : ℕ) : Int)).length : ℕ) : Int),
          saved, codec, schema)
      = .ok ((((metaBytes entries).length : ℕ) : Int),
          saved ++ (entries.map metaEntryBytes).flatten ++ encode_long 0,
          codecAfter codec entries, schemaAfter schema entries) := by
  show (if ((entries.length : ℕ) : Int) = 0 then _ else _) = _
  rw [if_neg (by exact_mod_cast hne)]
  simp only [bind, Except.bind, Int.toNat_natCast]
  have hshape : buffered
      = encode_long ((entries.length : ℕ) : Int)
        ++ ((entries.map metaEntryBytes).flatten ++ (encode_long 0 ++ rest)) := hbuf
  rw [metaEntries_canonical t buffered blen entries hok
    (encode_long ((entries.length : ℕ) : Int)) (encode_long 0 ++ rest)
    saved codec schema hshape hblen]
  dsimp only
  have hshape2 : buffered
      = (encode_long ((entries.length : ℕ) : Int)
          ++ (entries.map metaEntryBytes).flatten) ++ (encode_long 0 ++ rest) := by
    rw [hshape, List.append_assoc]
  have hr0 : read_long
      (pySliceFrom buffered
        (((encode_long ((entries.length : ℕ) : Int)
          ++ (entries.map metaEntryBytes).flatten).length : ℕ) : Int))
      (blen - (((encode_long ((entries.length : ℕ) : Int)
          ++ (entries.map metaEntryBytes).flatten).length : ℕ) : Int))
      = .ok ((0 : Int), (encode_long (0 : Int)).length) := by
    rw [pySliceFrom_extract buffered _ (encode_long 0 ++ rest) _ hshape2 rfl]
    refine read_long_encode_long 0 (by omega) (by omega) rest _ ?_
    rw [hblen, hshape2]
    push_cast [List.length_append]
    omega
  rw [hr0]
  dsimp only
  have hsl0 : pySlice buffered
      (((encode_long ((entries.length : ℕ) : Int)
        ++ (entries.map metaEntryBytes).flatten).length : ℕ) : Int)
      ((((encode_long ((entries.length : ℕ) : Int)
        ++ (entries.map metaEntryBytes).flatten).length : ℕ) : Int)
        + (((encode_long (0 : Int)).length : ℕ) : Int))
      = encode_long 0 :=
    pySlice_extract buffered _ (encode_long 0) rest _ _
      (by rw [hshape2, List.append_assoc]) rfl rfl
  rw [hsl0]
  show metaLoop t buffered blen (f + 1) 0 _ = _
  rw [metaLoop]
  rw [if_pos rfl]
  have hlen : (((encode_long ((entries.length : ℕ) : Int)
        ++ (entries.map metaEntryBytes).flatten).length : ℕ) : Int)
      + (((encode_long (0 : Int)).length : ℕ) : Int)
      = (((metaBytes entries).length : ℕ) : Int) := by
    rw [metaBytes]
    push_cast [List.length_append]
    omega
  rw [hlen]

/-- `_parse_file_metadata` on a canonical metadata section: emits it
verbatim, consumes it, commits the codec and schema attributes, and
moves to the sync-marker state. -/
theorem parse_file_metadata_canonical (t : Transform) (st : PState) (rest : Bytes)
    (entries : List (Bytes × Bytes)) (fuel : Nat)
    (hok : ∀ e ∈ entries, entryOk t e)
    (hne : entries.length ≠ 0)
    (hn63 : ((entries.length : ℕ) : Int) < 2 ^ 63)
    (hbuf : st.buffered = metaBytes entries ++ rest)
    (hblen : st.blen = (st.buffered.length : Int))
    (hfuel : 2 ≤ fuel) :
    parse_file_metadata t st fuel
      = .ok (metaBytes entries,
          mkSt { st with
              state := .syncMarker
              codec := codecAfter st.codec entries
              schema := schemaAfter st.schema entries } rest) := by
  obtain ⟨f, rfl⟩ : ∃ f, fuel = f + 2 := ⟨fuel - 2, by omega⟩
  have hshape : st.buffered
      = encode_long ((entries.length : ℕ) : Int)
        ++ ((entries.map metaEntryBytes).flatten ++ (encode_long 0 ++ rest)) := by
    rw [hbuf, metaBytes]
    simp only [List.append_assoc]
  unfold parse_file_metadata
  simp only [bind, Except.bind]
  have hrl : read_long st.buffered st.blen
      = .ok (((entries.length : ℕ) : Int),
          (encode_long ((entries.length : ℕ) : Int)).length) := by
    rw [hblen, hshape]
    refine read_long_encode_long _ (by omega) hn63 _ _ ?_
    push_cast [List.length_append]
    omega
  rw [hrl]
  dsimp only
  have hsaved : pySlice st.buffered 0
      (((encode_long ((entries.length : ℕ) : Int)).length : ℕ) : Int)
      = encode_long ((entries.length : ℕ) : Int) :=
    pySlice_prefix_extract st.buffered _ _ _ hshape rfl
  rw [hsaved]
  rw [metaLoop_canonical t st.buffered st.blen entries rest
    (encode_long ((entries.length : ℕ) : Int)) st.codec st.schema f hok hne hshape hblen]
  dsimp only
  have hps : pySliceFrom st.buffered (((metaBytes entries).length : ℕ) : Int) = rest :=
    pySliceFrom_extract st.buffered (metaBytes entries) rest _ hbuf rfl
  rw [hps]
  have hblen2 : st.blen - (((metaBytes entries).length : ℕ) : Int)
      = ((rest.length : ℕ) : Int) := by
    rw [hblen, hbuf]
    push_cast [List.length_append]
    omega
  rw [hblen2]
  have hout : encode_long ((entries.length : ℕ) : Int)
      ++ (entries.map metaEntryBytes).flatten ++ encode_long 0 = metaBytes entries := by
    rw [metaBytes]
  rw [hout]
  rfl

/-! ### Partial-segment behaviour of the parse phases -/

theorem prefix_split (p q X Y : Bytes) (h : p ++ q = X ++ Y)
    (hle : p.length ≤ X.length) : X = p ++ X.drop p.length := by
  have h1 : (p ++ q).take p.length = p := List.take_left p q
  rw [h, List.take_append_of_le_length hle] at h1
  conv_lhs => rw [← List.take_append_drop p.length X]
  rw [h1]

theorem drop_ne_nil (X : Bytes) (n : ℕ) (h : n < X.length) : X.drop n ≠ [] := by
  intro hnil
  have := congrArg List.length hnil
  simp only [List.length_drop, List.length_nil] at this
  omega

theorem append_split_tail (p q X Y : Bytes) (h : p ++ q = X ++ Y)
    (hle : X.length ≤ p.length) :
    p = X ++ p.drop X.length ∧ p.drop X.length ++ q = Y := by
  have hX : X = p.take X.length := by
    have h1 : (p ++ q).take X.length = p.take X.length :=
      List.take_append_of_le_length hle
    rw [h, List.take_append_of_le_length (le_refl X.length), List.take_length] at h1
    exact h1
  constructor
  · conv_lhs => rw [← List.take_append_drop X.length p]
    rw [← hX]
  · have h3 : X ++ p.drop X.length = p := by
      conv_rhs => rw [← List.take_append_drop X.length p]
      rw [← hX]
    have h2 : X ++ (p.drop X.length ++ q) = X ++ Y := by
      rw [← List.append_assoc, h3]
      exact h
    exact List.append_cancel_left h2

/-- `_parse_header_magic` with fewer than 4 bytes buffered raises
`AvroInsufficientDataException`. -/
theorem parse_header_magic_cut (st : PState) (p q : Bytes)
    (hsplit : p ++ q = magicBytes) (hq : q ≠ [])
    (hbuf : st.buffered = p) (hblen : st.blen = (st.buffered.length : Int)) :
    parse_header_magic st = .error .insufficientData := by
  have hlen : p.length + q.length = 4 := by
    have := congrArg List.length hsplit
    simp only [List.length_append] at this
    simpa [magicBytes] using this
  have hqpos : 0 < q.length := by
    cases q with
    | nil => exact absurd rfl hq
    | cons c cs => simp
  unfold parse_header_magic
  rw [if_pos (by rw [hblen, hbuf]; push_cast; omega)]

/-- `_parse_sync_marker` with fewer than 16 bytes buffered raises
`AvroInsufficientDataException` (whatever the marker state). -/
theorem parse_sync_marker_cut (st : PState) (p q M : Bytes)
    (hM : M.length = 16)
    (hsplit : p ++ q = M) (hq : q ≠ [])
    (hbuf : st.buffered = p) (hblen : st.blen = (st.buffered.length : Int)) :
    parse_sync_marker st = .error .insufficientData := by
  have hlen : p.length + q.length = 16 := by
    have := congrArg List.length hsplit
    simp only [List.length_append] at this
    omega
  have hqpos : 0 < q.length := by
    cases q with
    | nil => exact absurd rfl hq
    | cons c cs => simp
  unfold parse_sync_marker
  rw [if_pos (by rw [hblen, hbuf]; push_cast; omega)]

/-- `_parse_data_block` on a strict prefix of a canonical block raises
`AvroInsufficientDataException`: inside either varint the read fails,
and afterwards the explicit size check fails. -/
theorem parse_data_block_cut (sc : Codec) (t : Transform) (st : PState)
    (M R p q : Bytes) (n : ℕ) (hM : M.length = 16)
    (hn : ((n : ℕ) : Int) < 2 ^ 63)
    (hc : ((sc.compress R).length : Int) + 4 < 2 ^ 63)
    (hsplit : p ++ q = blockBytes sc M n R) (hq : q ≠ [])
    (hbuf : st.buffered = p) (hblen : st.blen = (st.buffered.length : Int)) :
    parse_data_block sc t st = .error .insufficientData := by
  have hqpos : 0 < q.length := by
    cases q with
    | nil => exact absurd rfl hq
    | cons c cs => simp
  have hbb : blockBytes sc M n R
      = encode_long ((n : ℕ) : Int)
        ++ (encode_long (((sc.compress R).length : Int) + 4)
          ++ (sc.compress R ++ (packUInt32LE (crc32 R) ++ M))) := by
    rw [blockBytes]
    simp only [List.append_assoc]
  have hplen : p.length < (blockBytes sc M n R).length := by
    have := congrArg List.length hsplit
    simp only [List.length_append] at this
    omega
  unfold parse_data_block
  simp only [bind, Except.bind]
  by_cases h1 : p.length < (encode_long ((n : ℕ) : Int)).length
  · have he1 : encode_long ((n : ℕ) : Int)
        = p ++ (encode_long ((n : ℕ) : Int)).drop p.length := by
      refine prefix_split p q (encode_long ((n : ℕ) : Int))
        (encode_long (((sc.compress R).length : Int) + 4)
          ++ (sc.compress R ++ (packUInt32LE (crc32 R) ++ M))) ?_ (by omega)
      rw [hsplit, hbb]
    have hrl : read_long st.buffered st.blen = .error .insufficientData := by
      rw [hbuf, hblen, hbuf]
      exact read_long_encode_long_prefix _ p _ he1 (drop_ne_nil _ _ h1)
    rw [hrl]
  · obtain ⟨hp1, hrest1⟩ := append_split_tail p q (encode_long ((n : ℕ) : Int))
      (encode_long (((sc.compress R).length : Int) + 4)
        ++ (sc.compress R ++ (packUInt32LE (crc32 R) ++ M)))
      (by rw [hsplit, hbb]) (by omega)
    have hrl1 : read_long st.buffered st.blen
        = .ok (((n : ℕ) : Int), (encode_long ((n : ℕ) : Int)).length) := by
      rw [hbuf, hblen, hbuf]
      conv_lhs => rw [hp1]
      refine read_long_encode_long _ (by omega) hn _ _ ?_
      rw [hp1]
      push_cast [List.length_append]
      omega
    rw [hrl1]
    dsimp only
    have hps1 : pySliceFrom st.buffered
        (((encode_long ((n : ℕ) : Int)).length : ℕ) : Int)
        = p.drop (encode_long ((n : ℕ) : Int)).length := by
      rw [hbuf]
      exact pySliceFrom_extract p _ _ _ hp1 rfl
    rw [hps1]
    have hblen1 : st.blen - (((encode_long ((n : ℕ) : Int)).length : ℕ) : Int)
        = (((p.drop (encode_long ((n : ℕ) : Int)).length).length : ℕ) : Int) := by
      rw [hblen, hbuf]
      conv_lhs => rw [hp1]
      push_cast [List.length_append]
      omega
    by_cases h2 : (p.drop (encode_long ((n : ℕ) : Int)).length).length
        < (encode_long (((sc.compress R).length : Int) + 4)).length
    · have he2 : encode_long (((sc.compress R).length : Int) + 4)
          = p.drop (encode_long ((n : ℕ) : Int)).length
            ++ (encode_long (((sc.compress R).length : Int) + 4)).drop
                (p.drop (encode_long ((n : ℕ) : Int)).length).length := by
        refine prefix_split (p.drop (encode_long ((n : ℕ) : Int)).length) q
          (encode_long (((sc.compress R).length : Int) + 4))
          (sc.compress R ++ (packUInt32LE (crc32 R) ++ M)) ?_ (by omega)
        exact hrest1
      have hrl2 : read_long (p.drop (encode_long ((n : ℕ) : Int)).length)
          (st.blen - (((encode_long ((n : ℕ) : Int)).length : ℕ) : Int))
          = .error .insufficientData := by
        rw [hblen1]
        exact read_long_encode_long_prefix _ _ _ he2 (drop_ne_nil _ _ h2)
      rw [hrl2]
    · obtain ⟨hp2, hrest2⟩ := append_split_tail
        (p.drop (encode_long ((n : ℕ) : Int)).length) q
        (encode_long (((sc.compress R).length : Int) + 4))
        (sc.compress R ++ (packUInt32LE (crc32 R) ++ M)) hrest1 (by omega)
      have hrl2 : read_long (p.drop (encode_long ((n : ℕ) : Int)).length)
          (st.blen - (((encode_long ((n : ℕ) : Int)).length : ℕ) : Int))
          = .ok ((((sc.compress R).length : Int) + 4),
              (encode_long (((sc.compress R).length : Int) + 4)).length) := by
        rw [hblen1]
        conv_lhs => rw [hp2]
        refine read_long_encode_long _ (by omega) hc _ _ ?_
        rw [hp2]
        push_cast [List.length_append]
        omega
      rw [hrl2]
      dsimp only
      rw [if_pos ?guard]
      case guard =>
        rw [hblen, hbuf]
        have hlb : (blockBytes sc M n R).length
            = (encode_long ((n : ℕ) : Int)).length
              + (encode_long (((sc.compress R).length : Int) + 4)).length
              + (sc.compress R).length + 4 + 16 := by
          rw [blockBytes]
          simp only [List.length_append, packUInt32LE_length, hM]
        push_cast
        omega

/-- One metadata entry cut short: the key or value read raises the
insufficient-data exception. -/
theorem metaEntry_cut (t : Transform) (buffered : Bytes) (blen : Int)
    (pre p q : Bytes) (kv : Bytes × Bytes) (hok : entryOk t kv)
    (hsplit : p ++ q = metaEntryBytes kv) (hq : q ≠ [])
    (hbuf : buffered = pre ++ p)
    (hblen : blen = (buffered.length : Int))
    (saved : Bytes) (codec : Option Bytes) (schema : Json) :
    metaEntry t buffered blen ((pre.length : ℕ) : Int) saved codec schema
      = .error .insufficientData := by
  obtain ⟨hk63, hv63, _hcod, _hsch⟩ := hok
  have hqpos : 0 < q.length := by
    cases q with
    | nil => exact absurd rfl hq
    | cons c cs => simp
  have hme : metaEntryBytes kv = encStr kv.1 ++ encStr kv.2 := rfl
  have hlen : p.length + q.length = (encStr kv.1).length + (encStr kv.2).length := by
    have := congrArg List.length hsplit
    simp only [List.length_append, hme] at this
    omega
  unfold metaEntry
  simp only [bind, Except.bind]
  have hps : pySliceFrom buffered ((pre.length : ℕ) : Int) = p :=
    pySliceFrom_extract buffered pre p _ hbuf rfl
  have hblenp : blen - ((pre.length : ℕ) : Int) = ((p.length : ℕ) : Int) := by
    rw [hblen, hbuf]
    push_cast [List.length_append]
    omega
  by_cases h1 : p.length < (encStr kv.1).length
  · have he1 : encStr kv.1 = p ++ (encStr kv.1).drop p.length :=
      prefix_split p q (encStr kv.1) (encStr kv.2) (by rw [hsplit, hme]) (by omega)
    have hr1 : read_bytes p ((p.length : ℕ) : Int) = .error .insufficientData :=
      read_bytes_encStr_prefix kv.1 hk63 p _ he1 (drop_ne_nil _ _ h1)
    rw [hps, hblenp, hr1]
  · obtain ⟨hp1, hrest1⟩ := append_split_tail p q (encStr kv.1) (encStr kv.2)
      (by rw [hsplit, hme]) (by omega)
    have hr1 : read_bytes p ((p.length : ℕ) : Int)
        = .ok (kv.1, (((encStr kv.1).length : ℕ) : Int)) := by
      conv_lhs => rw [hp1]
      exact read_bytes_encStr kv.1 _ hk63
    rw [hps, hblenp, hr1]
    dsimp only
    have hlen2 : (p.drop (encStr kv.1).length).length < (encStr kv.2).length := by
      have h3 := congrArg List.length hrest1
      simp only [List.length_append] at h3
      omega
    have he2 : encStr kv.2 = p.drop (encStr kv.1).length
        ++ (encStr kv.2).drop (p.drop (encStr kv.1).length).length := by
      refine prefix_split (p.drop (encStr kv.1).length) q (encStr kv.2) [] ?_ (by omega)
      rw [List.append_nil]
      exact hrest1
    have hq2 : (encStr kv.2).drop (p.drop (encStr kv.1).length).length ≠ [] :=
      drop_ne_nil _ _ hlen2
    have hps2 : pySliceFrom buffered
        (((pre.length : ℕ) : Int) + (((encStr kv.1).length : ℕ) : Int))
        = p.drop (encStr kv.1).length := by
      refine pySliceFrom_extract buffered (pre ++ encStr kv.1) _ _ ?_ ?_
      · rw [hbuf]
        conv_lhs => rw [hp1]
        rw [List.append_assoc]
      · push_cast [List.length_append]
        omega
    have hblen2 : blen - (((pre.length : ℕ) : Int) + (((encStr kv.1).length : ℕ) : Int))
        = (((p.drop (encStr kv.1).length).length : ℕ) : Int) := by
      rw [hblen, hbuf]
      conv_lhs => rw [hp1]
      push_cast [List.length_append]
      omega
    have hr2 : read_bytes (p.drop (encStr kv.1).length)
        (((p.drop (encStr kv.1).length).length : ℕ) : Int) = .error .insufficientData :=
      read_bytes_encStr_prefix kv.2 hv63 _ _ he2 hq2
    by_cases hkc : kv.1 = avroCodecKey
    · rw [if_pos hkc]
      unfold read_avro_codec
      simp only [bind, Except.bind]
      rw [hps2, hblen2, hr2]
    · rw [if_neg hkc]
      by_cases hks : kv.1 = avroSchemaKey
      · rw [if_pos hks]
        unfold read_avro_schema
        simp only [bind, Except.bind]
        rw [hps2, hblen2, hr2]
      · rw [if_neg hks]
        rw [hps2, hblen2, hr2]

/-- The entry loop cut short anywhere inside the serialized entries:
some entry read raises the insufficient-data exception. -/
theorem metaEntries_cut (t : Transform) (buffered : Bytes) (blen : Int) :
    ∀ (entries : List (Bytes × Bytes)), (∀ e ∈ entries, entryOk t e) →
    ∀ (pre p q saved : Bytes) (codec : Option Bytes) (schema : Json),
      p ++ q = (entries.map metaEntryBytes).flatten → q ≠ [] →
      buffered = pre ++ p →
      blen = (buffered.length : Int) →
      metaEntries t buffered blen entries.length
        (((pre.length : ℕ) : Int), saved, codec, schema) = .error .insufficientData
  | [], _hok, pre, p, q, saved, codec, schema, hsplit, hq, hbuf, hblen => by
      exfalso
      apply hq
      simp only [List.map_nil, List.flatten_nil] at hsplit
      exact (List.append_eq_nil.mp hsplit).2
  | kv :: es, hok, pre, p, q, saved, codec, schema, hsplit, hq, hbuf, hblen => by
      simp only [List.length_cons, metaEntries, bind, Except.bind]
      simp only [List.map_cons, List.flatten_cons] at hsplit
      have hqpos : 0 < q.length := by
        cases q with
        | nil => exact absurd rfl hq
        | cons c cs => simp
      by_cases h1 : p.length < (metaEntryBytes kv).length
      · have he : metaEntryBytes kv = p ++ (metaEntryBytes kv).drop p.length :=
          prefix_split p q _ ((es.map metaEntryBytes).flatten) hsplit (by omega)
        rw [metaEntry_cut t buffered blen pre p _ kv (hok _ (by simp))
          he.symm (drop_ne_nil _ _ h1) hbuf hblen saved codec schema]
      · obtain ⟨hp1, hrest1⟩ := append_split_tail p q (metaEntryBytes kv)
          ((es.map metaEntryBytes).flatten) hsplit (by omega)
        have hshape : buffered
            = pre ++ (metaEntryBytes kv ++ p.drop (metaEntryBytes kv).length) := by
          rw [hbuf]
          conv_lhs => rw [hp1]
        rw [metaEntry_canonical t buffered blen pre (p.drop (metaEntryBytes kv).length)
          kv (hok _ (by simp)) hshape hblen saved codec schema]
        dsimp only
        exact metaEntries_cut t buffered blen es (fun e he2 => hok e (by simp [he2]))
          (pre ++ metaEntryBytes kv) (p.drop (metaEntryBytes kv).length) q _ _ _
          hrest1 hq
          (by rw [hbuf]; conv_lhs => rw [hp1]; rw [← List.append_assoc])
          hblen

/-- `_parse_file_metadata` on a strict prefix of a canonical metadata
section raises the insufficient-data exception: inside the count, an
entry, or at the missing terminator. -/
theorem parse_file_metadata_cut (t : Transform) (st : PState)
    (entries : List (Bytes × Bytes)) (p q : Bytes) (fuel : Nat)
    (hok : ∀ e ∈ entries, entryOk t e)
    (hn63 : ((entries.length : ℕ) : Int) < 2 ^ 63)
    (hne : entries.length ≠ 0)
    (hsplit : p ++ q = metaBytes entries) (hq : q ≠ [])
    (hbuf : st.buffered = p) (hblen : st.blen = (st.buffered.length : Int))
    (hfuel : p.length + 1 ≤ fuel) :
    parse_file_metadata t st fuel = .error .insufficientData := by
  have hqpos : 0 < q.length := by
    cases q with
    | nil => exact absurd rfl hq
    | cons c cs => simp
  have hmb : metaBytes entries
      = encode_long ((entries.length : ℕ) : Int)
        ++ ((entries.map metaEntryBytes).flatten ++ encode_long 0) := by
    rw [metaBytes, List.append_assoc]
  unfold parse_file_metadata
  simp only [bind, Except.bind]
  by_cases h1 : p.length < (encode_long ((entries.length : ℕ) : Int)).length
  · have he1 : encode_long ((entries.length : ℕ) : Int)
        = p ++ (encode_long ((entries.length : ℕ) : Int)).drop p.length :=
      prefix_split p q _ ((entries.map metaEntryBytes).flatten ++ encode_long 0)
        (by rw [hsplit, hmb]) (by omega)
    have hrl : read_long st.buffered st.blen = .error .insufficientData := by
      rw [hbuf, hblen, hbuf]
      exact read_long_encode_long_prefix _ p _ he1 (drop_ne_nil _ _ h1)
    rw [hrl]
  · have he1pos : 0 < (encode_long ((entries.length : ℕ) : Int)).length :=
      encodeLoop_length_pos _
    obtain ⟨f, rfl⟩ : ∃ f, fuel = f + 2 := ⟨fuel - 2, by omega⟩
    obtain ⟨hp1, hrest1⟩ := append_split_tail p q
      (encode_long ((entries.length : ℕ) : Int))
      ((entries.map metaEntryBytes).flatten ++ encode_long 0)
      (by rw [hsplit, hmb]) (by omega)
    have hrl1 : read_long st.buffered st.blen
        = .ok (((entries.length : ℕ) : Int),
            (encode_long ((entries.length : ℕ) : Int)).length) := by
      rw [hbuf, hblen, hbuf]
      conv_lhs => rw [hp1]
      refine read_long_encode_long _ (by omega) hn63 _ _ ?_
      push_cast [List.length_append]
      omega
    rw [hrl1]
    dsimp only
    rw [metaLoop]
    rw [if_neg (by exact_mod_cast hne)]
    simp only [bind, Except.bind, Int.toNat_natCast]
    by_cases h2 : (p.drop (encode_long ((entries.length : ℕ) : Int)).length).length
        < ((entries.map metaEntryBytes).flatten).length
    · have hfl : (entries.map metaEntryBytes).flatten
          = p.drop (encode_long ((entries.length : ℕ) : Int)).length
            ++ ((entries.map metaEntryBytes).flatten).drop
                (p.drop (encode_long ((entries.length : ℕ) : Int)).length).length :=
        prefix_split _ q _ (encode_long 0) hrest1 (by omega)
      rw [metaEntries_cut t st.buffered st.blen entries hok
        (encode_long ((entries.length : ℕ) : Int))
        (p.drop (encode_long ((entries.length : ℕ) : Int)).length)
        (((entries.map metaEntryBytes).flatten).drop
          (p.drop (encode_long ((entries.length : ℕ) : Int)).length).length)
        _ _ _ hfl.symm (drop_ne_nil _ _ h2)
        (by rw [hbuf]; conv_lhs => rw [hp1])
        hblen]
    · have hlen3 := congrArg List.length hrest1
      simp only [List.length_append, List.length_drop] at hlen3
      have h00 : (encode_long (0 : Int)).length = 1 := rfl
      obtain ⟨hp2, hrest2⟩ := append_split_tail
        (p.drop (encode_long ((entries.length : ℕ) : Int)).length) q
        ((entries.map metaEntryBytes).flatten) (encode_long 0) hrest1 (by omega)
      have hdnil : ((p.drop (encode_long ((entries.length : ℕ) : Int)).length).drop
          ((entries.map metaEntryBytes).flatten).length) = [] := by
        refine List.eq_nil_of_length_eq_zero ?_
        simp only [List.length_drop]
        have h0 : (encode_long (0 : Int)).length = 1 := rfl
        omega
      have hp2eq : p.drop (encode_long ((entries.length : ℕ) : Int)).length
          = (entries.map metaEntryBytes).flatten := by
        rw [hp2, hdnil, List.append_nil]
      rw [metaEntries_canonical t st.buffered st.blen entries hok
        (encode_long ((entries.length : ℕ) : Int)) [] _ _ _
        (by
          rw [List.append_nil, hbuf]
          conv_lhs => rw [hp1]
          rw [hp2eq])
        hblen]
      dsimp only
      have hps0 : pySliceFrom st.buffered
          (((encode_long ((entries.length : ℕ) : Int)
            ++ (entries.map metaEntryBytes).flatten).length : ℕ) : Int) = [] := by
        refine pySliceFrom_extract st.buffered _ [] _ ?_ rfl
        rw [List.append_nil, hbuf]
        conv_lhs => rw [hp1]
        rw [hp2eq]
      have hblen0 : st.blen
          - (((encode_long ((entries.length : ℕ) : Int)
            ++ (entries.map metaEntryBytes).flatten).length : ℕ) : Int) = 0 := by
        rw [hblen, hbuf]
        conv_lhs => rw [hp1]
        rw [hp2eq]
        push_cast [List.length_append]
        omega
      rw [hps0, hblen0]
      have hr0 : read_long ([] : Bytes) (0 : Int) = .error .insufficientData := by
        rw [read_long_eq, if_pos rfl]
      rw [hr0]

/-! ### Driving `next()` over a chunked source -/

theorem encode_long_length_pos (v : Int) : 0 < (encode_long v).length :=
  encodeLoop_length_pos _

/-- Chunk-feeding: a parse phase that succeeds on its complete segment
`S` with any tail, and raises the insufficient-data exception on every
strict prefix of `S`, absorbs chunks until `S` is buffered, emits
`out`, and hands the remaining bytes to the follow-on state — however
the source bytes are chunked. -/
theorem runAll_feed (sc : Codec) (t : Transform) (st0 st1 : PState) (S out T : Bytes)
    (hcomplete : ∀ rest, parse_next_item sc t (mkSt st0 (S ++ rest))
      = .ok (out, mkSt st1 rest))
    (hshort : ∀ p q, p ++ q = S → q ≠ [] →
      parse_next_item sc t (mkSt st0 p) = .error .insufficientData) :
    ∀ (chunks : List Bytes) (p : Bytes) (slack : ℕ),
      p ++ chunks.flatten = S ++ T → 1 ≤ slack →
      ∃ (p2 : Bytes) (cs2 : List Bytes),
        p2 ++ cs2.flatten = T ∧
        runAll sc t (chunks.length + slack) (mkSt st0 p) chunks
          = (out :: (runAll sc t (cs2.length + (slack - 1)) (mkSt st1 p2) cs2).1,
             (runAll sc t (cs2.length + (slack - 1)) (mkSt st1 p2) cs2).2) := by
  intro chunks
  induction chunks with
  | nil =>
      intro p slack hsplit hslack
      simp only [List.flatten_nil, List.append_nil] at hsplit
      have hle : S.length ≤ p.length := by
        have := congrArg List.length hsplit
        simp only [List.length_append] at this
        omega
      obtain ⟨hp, hrest⟩ := append_split_tail p [] S T
        (by rw [List.append_nil]; exact hsplit) hle
      refine ⟨p.drop S.length, [], by simpa using hrest, ?_⟩
      have hf : (List.length ([] : List Bytes)) + slack
          = ((List.length ([] : List Bytes)) + (slack - 1)) + 1 := by
        simp only [List.length_nil]
        omega
      rw [hf]
      have hstep : parse_next_item sc t (mkSt st0 p)
          = .ok (out, mkSt st1 (p.drop S.length)) := by
        conv_lhs => rw [hp]
        exact hcomplete (p.drop S.length)
      simp only [runAll, hstep]
  | cons c cs IH =>
      intro p slack hsplit hslack
      by_cases hS : S.length ≤ p.length
      · obtain ⟨hp, hrest⟩ := append_split_tail p ((c :: cs).flatten) S T hsplit hS
        refine ⟨p.drop S.length, c :: cs, hrest, ?_⟩
        have hf : (c :: cs).length + slack = ((c :: cs).length + (slack - 1)) + 1 := by
          omega
        rw [hf]
        have hstep : parse_next_item sc t (mkSt st0 p)
            = .ok (out, mkSt st1 (p.drop S.length)) := by
          conv_lhs => rw [hp]
          exact hcomplete (p.drop S.length)
        simp only [runAll, hstep]
      · push_neg at hS
        have hSp : S = p ++ S.drop p.length :=
          prefix_split p ((c :: cs).flatten) S T hsplit (by omega)
        have hstep := hshort p (S.drop p.length) hSp.symm (drop_ne_nil _ _ hS)
        have hf : (c :: cs).length + slack = (cs.length + slack) + 1 := by
          simp only [List.length_cons]
          omega
        rw [hf]
        simp only [runAll, hstep]
        have hmk : ({ mkSt st0 p with
              buffered := (mkSt st0 p).buffered ++ c,
              blen := (mkSt st0 p).blen + ((c.length : ℕ) : Int) } : PState)
            = mkSt st0 (p ++ c) := by
          simp only [mkSt]
          congr 1
          push_cast [List.length_append]
          omega
        rw [hmk]
        have hsplit2 : (p ++ c) ++ cs.flatten = S ++ T := by
          rw [List.append_assoc, ← List.flatten_cons]
          exact hsplit
        exact IH (p ++ c) slack hsplit2 hslack

/-- Once the canonical stream is fully consumed, the remaining (empty)
chunks are drained one by one and iteration ends silently. -/
theorem runAll_drained (sc : Codec) (t : Transform) (st0 : PState)
    (hins : parse_next_item sc t (mkSt st0 []) = .error .insufficientData) :
    ∀ (cs : List Bytes) (slack : ℕ), cs.flatten = [] → 1 ≤ slack →
      runAll sc t (cs.length + slack) (mkSt st0 []) cs = ([], .stopIteration)
  | [], slack, _hflat, hslack => by
      obtain ⟨s2, rfl⟩ : ∃ s2, slack = s2 + 1 := ⟨slack - 1, by omega⟩
      have hf : (List.length ([] : List Bytes)) + (s2 + 1) = (0 + s2) + 1 := by
        simp only [List.length_nil]
        omega
      rw [hf]
      simp only [runAll, hins]
  | c :: cs, slack, hflat, hslack => by
      simp only [List.flatten_cons, List.append_eq_nil] at hflat
      obtain ⟨rfl, hflat2⟩ := hflat
      have hf : (([] : Bytes) :: cs).length + slack = (cs.length + slack) + 1 := by
        simp only [List.length_cons]
        omega
      rw [hf]
      simp only [runAll, hins]
      have hmk : ({ mkSt st0 [] with
            buffered := (mkSt st0 []).buffered ++ [],
            blen := (mkSt st0 []).blen + ((List.length ([] : Bytes) : ℕ) : Int) } : PState)
          = mkSt st0 [] := by
        simp only [mkSt]
        congr 1
        all_goals simp
      rw [hmk]
      exact runAll_drained sc t st0 hins cs slack hflat2 hslack

/-- Driving the parser over a sequence of canonical blocks: each block
is emitted verbatim, then the remaining empty chunks end the iteration
silently. -/
theorem runAll_blocks (sc : Codec) (M : Bytes) (Jfin : Json) (Cod : Option Bytes)
    (xs : JsonArr)
    (hM : M.length = 16)
    (hcodec : Cod = some snappyName)
    (hx : getItem Jfin fieldsKey = .ok (.jarr xs)) :
    ∀ (blocks : List (List (List AvroVal))),
      (∀ recs ∈ blocks, (∀ vals ∈ recs, fieldsTypedB xs vals = true)
        ∧ ((recs.length : ℕ) : Int) < 2 ^ 63
        ∧ ((sc.compress (blockContent recs)).length : Int) + 4 < 2 ^ 63
        ∧ sc.decompress (sc.compress (blockContent recs)) = some (blockContent recs)) →
    ∀ (p : Bytes) (cs : List Bytes) (slack : ℕ),
      p ++ cs.flatten
        = (blocks.map (fun recs => blockBytes sc M recs.length (blockContent recs))).flatten →
      blocks.length + 1 ≤ slack →
      runAll sc .base (cs.length + slack)
          (mkSt ⟨[], 0, Jfin, Cod, .startDatablock, some M⟩ p) cs
        = (blocks.map (fun recs => blockBytes sc M recs.length (blockContent recs)),
           .stopIteration)
  | [], _hblocks, p, cs, slack, hsplit, hslack => by
      simp only [List.map_nil, List.flatten_nil, List.append_eq_nil] at hsplit
      obtain ⟨rfl, hflat⟩ := hsplit
      rw [runAll_drained sc .base ⟨[], 0, Jfin, Cod, .startDatablock, some M⟩
        (by rfl) cs slack hflat (by omega)]
      rfl
  | recs :: blocks2, hblocks, p, cs, slack, hsplit, hslack => by
      obtain ⟨hts, hn, hc, hdec⟩ := hblocks recs (by simp)
      have hsplit2 : p ++ cs.flatten
          = blockBytes sc M recs.length (blockContent recs)
            ++ (blocks2.map
              (fun r => blockBytes sc M r.length (blockContent r))).flatten := by
        rw [hsplit]
        simp only [List.map_cons, List.flatten_cons]
      obtain ⟨p2, cs2, hs2, heq⟩ := runAll_feed sc .base
        ⟨[], 0, Jfin, Cod, .startDatablock, some M⟩
        ⟨[], 0, Jfin, Cod, .startDatablock, some M⟩
        (blockBytes sc M recs.length (blockContent recs))
        (blockBytes sc M recs.length (blockContent recs))
        ((blocks2.map (fun r => blockBytes sc M r.length (blockContent r))).flatten)
        (fun rest => parse_data_block_canonical sc
          (mkSt ⟨[], 0, Jfin, Cod, .startDatablock, some M⟩
            (blockBytes sc M recs.length (blockContent recs) ++ rest))
          M rest xs recs hM rfl hcodec hx hts hn hc hdec rfl rfl)
        (fun p3 q3 hsp hq => parse_data_block_cut sc .base
          (mkSt ⟨[], 0, Jfin, Cod, .startDatablock, some M⟩ p3)
          M (blockContent recs) p3 q3 recs.length hM hn hc hsp hq rfl rfl)
        cs p slack hsplit2 (by omega)
      rw [heq,
        runAll_blocks sc M Jfin Cod xs hM hcodec hx blocks2
          (fun r hr => hblocks r (by simp [hr])) p2 cs2 (slack - 1) hs2 (by
            simp only [List.length_cons] at hslack
            omega)]
      simp only [List.map_cons]

/-- The full driver theorem: on any chunking of a canonical OCF
stream, the parser emits exactly the magic, the metadata section, the
header sync marker, and each data block, all verbatim, and then ends
iteration silently. -/
theorem runAll_ocf (sc : Codec) (entries : List (Bytes × Bytes)) (M : Bytes)
    (blocks : List (List (List AvroVal))) (xs : JsonArr)
    (hok : ∀ e ∈ entries, entryOk .base e)
    (hne : entries.length ≠ 0)
    (hn63 : ((entries.length : ℕ) : Int) < 2 ^ 63)
    (hM : M.length = 16)
    (hcodec : codecAfter none entries = some snappyName)
    (hx : getItem (schemaAfter (.jobj .onil) entries) fieldsKey = .ok (.jarr xs))
    (hblocks : ∀ recs ∈ blocks, (∀ vals ∈ recs, fieldsTypedB xs vals = true)
      ∧ ((recs.length : ℕ) : Int) < 2 ^ 63
      ∧ ((sc.compress (blockContent recs)).length : Int) + 4 < 2 ^ 63
      ∧ sc.decompress (sc.compress (blockContent recs)) = some (blockContent recs))
    (init : Bytes) (chunks : List Bytes)
    (hsplit : init ++ chunks.flatten = ocfStream sc entries M blocks)
    (slack : ℕ) (hslack : blocks.length + 4 ≤ slack) :
    runAll sc .base (chunks.length + slack) (initState init) chunks
      = (magicBytes :: metaBytes entries :: M
          :: blocks.map (fun recs => blockBytes sc M recs.length (blockContent recs)),
         .stopIteration) := by
  have hT0 : initState init
      = mkSt ⟨[], 0, .jobj .onil, none, .headerMagic, none⟩ init := rfl
  rw [hT0]
  obtain ⟨p2, cs2, hs2, heq1⟩ := runAll_feed sc .base
    ⟨[], 0, .jobj .onil, none, .headerMagic, none⟩
    ⟨[], 0, .jobj .onil, none, .fileMetadata, none⟩
    magicBytes magicBytes
    (metaBytes entries ++ (M ++ (blocks.map
      (fun recs => blockBytes sc M recs.length (blockContent recs))).flatten))
    (fun rest => parse_header_magic_complete _ rest rfl rfl)
    (fun p q hsp hq => parse_header_magic_cut _ p q hsp hq rfl rfl)
    chunks init slack
    (by rw [hsplit, ocfStream]; simp only [List.append_assoc]) (by omega)
  rw [heq1]
  obtain ⟨p3, cs3, hs3, heq2⟩ := runAll_feed sc .base
    ⟨[], 0, .jobj .onil, none, .fileMetadata, none⟩
    ⟨[], 0, schemaAfter (.jobj .onil) entries, codecAfter none entries, .syncMarker, none⟩
    (metaBytes entries) (metaBytes entries)
    (M ++ (blocks.map
      (fun recs => blockBytes sc M recs.length (blockContent recs))).flatten)
    (fun rest => parse_file_metadata_canonical .base
      (mkSt ⟨[], 0, .jobj .onil, none, .fileMetadata, none⟩ (metaBytes entries ++ rest))
      rest entries _ hok hne hn63 rfl rfl
      (by
        have h1 := encode_long_length_pos ((entries.length : ℕ) : Int)
        simp only [mkSt, Int.toNat_natCast, metaBytes, List.length_append]
        omega))
    (fun p q hsp hq => parse_file_metadata_cut .base
      (mkSt ⟨[], 0, .jobj .onil, none, .fileMetadata, none⟩ p)
      entries p q _ hok hn63 hne hsp hq rfl rfl
      (by simp only [mkSt, Int.toNat_natCast]; omega))
    cs2 p2 (slack - 1) hs2 (by omega)
  rw [heq2]
  obtain ⟨p4, cs4, hs4, heq3⟩ := runAll_feed sc .base
    ⟨[], 0, schemaAfter (.jobj .onil) entries, codecAfter none entries, .syncMarker, none⟩
    ⟨[], 0, schemaAfter (.jobj .onil) entries, codecAfter none entries,
      .startDatablock, some M⟩
    M M
    ((blocks.map (fun recs => blockBytes sc M recs.length (blockContent recs))).flatten)
    (fun rest => parse_sync_marker_first _ M rest hM rfl rfl rfl)
    (fun p q hsp hq => parse_sync_marker_cut _ p q M hM hsp hq rfl rfl)
    cs3 p3 (slack - 1 - 1) hs3 (by omega)
  rw [heq3]
  rw [runAll_blocks sc M (schemaAfter (.jobj .onil) entries) (codecAfter none entries)
    xs hM hcodec hx blocks hblocks p4 cs4 (slack - 1 - 1 - 1) hs4 (by omega)]

/-! ### Claims C1 and C3 (amended): canonical round trip and chunking
invariance -/

/-- C1 (amended): for every canonical OCF input with codec snappy —
schema metadata values fixed points of load-then-dump re-serialization,
canonical varint length prefixes, each block's records exactly filling
the decompressed payload with well-typed canonically encoded fields,
payload equal to the codec's compression of its content, correct
CRC-32 — transcoding with the identity transform reproduces the input
byte stream exactly and ends iteration normally. -/
theorem C1_roundtrip_identity_canonical (sc : Codec)
    (entries : List (Bytes × Bytes)) (M : Bytes)
    (blocks : List (List (List AvroVal))) (xs : JsonArr)
    (hok : ∀ e ∈ entries, entryOk .base e)
    (hne : entries.length ≠ 0)
    (hn63 : ((entries.length : ℕ) : Int) < 2 ^ 63)
    (hM : M.length = 16)
    (hcodec : codecAfter none entries = some snappyName)
    (hx : getItem (schemaAfter (.jobj .onil) entries) fieldsKey = .ok (.jarr xs))
    (hblocks : ∀ recs ∈ blocks, (∀ vals ∈ recs, fieldsTypedB xs vals = true)
      ∧ ((recs.length : ℕ) : Int) < 2 ^ 63
      ∧ ((sc.compress (blockContent recs)).length : Int) + 4 < 2 ^ 63
      ∧ sc.decompress (sc.compress (blockContent recs)) = some (blockContent recs)) :
    (runAll sc .base (blocks.length + 4)
        (initState (ocfStream sc entries M blocks)) []).1.flatten
      = ocfStream sc entries M blocks
    ∧ (runAll sc .base (blocks.length + 4)
        (initState (ocfStream sc entries M blocks)) []).2 = .stopIteration := by
  have h := runAll_ocf sc entries M blocks xs hok hne hn63 hM hcodec hx hblocks
    (ocfStream sc entries M blocks) []
    (by simp) (blocks.length + 4) (le_refl _)
  have hf : (List.length ([] : List Bytes)) + (blocks.length + 4)
      = blocks.length + 4 := by
    simp
  rw [hf] at h
  rw [h]
  constructor
  · simp only [List.flatten_cons]
    rw [ocfStream]
    simp only [List.append_assoc]
  · rfl

/-- Witness for C1 (amended): the canonical stream with snappy codec,
the `{"fields": []}` schema and one single-record block round-trips
byte-for-byte. -/
theorem C1_roundtrip_identity_canonical_witness :
    (runAll snappyLit .base (c1Blocks.length + 4)
        (initState (ocfStream snappyLit c1Entries c1Sync c1Blocks)) []).1.flatten
      = ocfStream snappyLit c1Entries c1Sync c1Blocks
    ∧ (runAll snappyLit .base (c1Blocks.length + 4)
        (initState (ocfStream snappyLit c1Entries c1Sync c1Blocks)) []).2
      = .stopIteration :=
  C1_roundtrip_identity_canonical snappyLit c1Entries c1Sync c1Blocks .anil
    (by
      intro e he
      simp only [c1Entries, List.mem_cons, List.not_mem_nil, or_false] at he
      rcases he with rfl | rfl
      · exact ⟨by decide, by decide, fun _ => rfl, fun h => absurd h (by decide)⟩
      · exact ⟨by decide, by decide, fun h => absurd h (by decide),
          fun _ => ⟨emptyFieldsSchema, emptyFieldsSchema, rfl, rfl, rfl, rfl⟩⟩)
    (by decide) (by decide) (by decide) rfl rfl
    (by
      intro recs hr
      simp only [c1Blocks, List.mem_cons, List.not_mem_nil, or_false] at hr
      subst hr
      refine ⟨?_, by decide, by decide, by decide⟩
      intro vals hv
      simp only [List.mem_cons, List.not_mem_nil, or_false] at hv
      subst hv
      rfl)

/-- C3 (amended): for canonical OCF inputs (all length prefixes
canonical and nonnegative in particular), the collected output of the
iteration is the same however the same total bytes are split between
the initial body and the source chunks. -/
theorem C3_chunking_invariance_canonical (sc : Codec)
    (entries : List (Bytes × Bytes)) (M : Bytes)
    (blocks : List (List (List AvroVal))) (xs : JsonArr)
    (hok : ∀ e ∈ entries, entryOk .base e)
    (hne : entries.length ≠ 0)
    (hn63 : ((entries.length : ℕ) : Int) < 2 ^ 63)
    (hM : M.length = 16)
    (hcodec : codecAfter none entries = some snappyName)
    (hx : getItem (schemaAfter (.jobj .onil) entries) fieldsKey = .ok (.jarr xs))
    (hblocks : ∀ recs ∈ blocks, (∀ vals ∈ recs, fieldsTypedB xs vals = true)
      ∧ ((recs.length : ℕ) : Int) < 2 ^ 63
      ∧ ((sc.compress (blockContent recs)).length : Int) + 4 < 2 ^ 63
      ∧ sc.decompress (sc.compress (blockContent recs)) = some (blockContent recs))
    (init1 : Bytes) (chunks1 : List Bytes) (init2 : Bytes) (chunks2 : List Bytes)
    (h1 : init1 ++ chunks1.flatten = ocfStream sc entries M blocks)
    (h2 : init2 ++ chunks2.flatten = ocfStream sc entries M blocks)
    (slack1 slack2 : ℕ)
    (hs1 : blocks.length + 4 ≤ slack1) (hs2 : blocks.length + 4 ≤ slack2) :
    runAll sc .base (chunks1.length + slack1) (initState init1) chunks1
      = runAll sc .base (chunks2.length + slack2) (initState init2) chunks2 := by
  rw [runAll_ocf sc entries M blocks xs hok hne hn63 hM hcodec hx hblocks
      init1 chunks1 h1 slack1 hs1,
    runAll_ocf sc entries M blocks xs hok hne hn63 hM hcodec hx hblocks
      init2 chunks2 h2 slack2 hs2]

/-- Witness for C3 (amended): delivering the canonical stream all at
once and split at byte 20 yields identical runs. -/
theorem C3_chunking_invariance_canonical_witness :
    runAll snappyLit .base (0 + 5) (initState c1CanStream) []
      = runAll snappyLit .base (1 + 5)
          (initState (c1CanStream.take 20)) [c1CanStream.drop 20] :=
  C3_chunking_invariance_canonical snappyLit c1Entries c1Sync c1Blocks .anil
    (by
      intro e he
      simp only [c1Entries, List.mem_cons, List.not_mem_nil, or_false] at he
      rcases he with rfl | rfl
      · exact ⟨by decide, by decide, fun _ => rfl, fun h => absurd h (by decide)⟩
      · exact ⟨by decide, by decide, fun h => absurd h (by decide),
          fun _ => ⟨emptyFieldsSchema, emptyFieldsSchema, rfl, rfl, rfl, rfl⟩⟩)
    (by decide) (by decide) (by decide) rfl rfl
    (by
      intro recs hr
      simp only [c1Blocks, List.mem_cons, List.not_mem_nil, or_false] at hr
      subst hr
      refine ⟨?_, by decide, by decide, by decide⟩
      intro vals hv
      simp only [List.mem_cons, List.not_mem_nil, or_false] at hv
      subst hv
      rfl)
    c1CanStream [] (c1CanStream.take 20) [c1CanStream.drop 20]
    (by simp [c1CanStream])
    (by simp only [List.flatten_cons, List.flatten_nil, List.append_nil, c1CanStream]
        exact List.take_append_drop 20 _)
    5 5 (by decide) (by decide)

end AvroStreamer
